import Mathlib

/-!
Verification of the static-analysis core of the codedocgen backend
(`app/services/endpoint_parser.py`, `app/services/flow_analyzer.py`,
`app/services/entity_parser.py`).  Python strings are modelled as
`List Char`; the regex patterns of the source are compiled, pattern by
pattern, into small executable matchers over `List Char`; the mutable
per-instance dictionaries are modelled as explicitly threaded
association lists.
-/

namespace JavaText

/-- Python regex `\w`: letters, digits and underscore (ASCII fragment,
which is all the source patterns are ever applied to). -/
def isWordChar (c : Char) : Bool :=
  c.isAlpha || c.isDigit || c = '_'

/-- Python regex `\s`: the whitespace characters of the `re` module. -/
def isPyWs (c : Char) : Bool :=
  c = ' ' || c = '\t' || c = '\n' || c = '\x0d' || c = '\x0b' || c = '\x0c'

/-- Lower-case a Python string, character by character (`str.lower`). -/
def lowerL (s : List Char) : List Char :=
  s.map Char.toLower

/-- Python `str.strip(c)`: remove every leading and trailing occurrence
of the character `c`. -/
def pyStripChar (c : Char) (s : List Char) : List Char :=
  ((s.dropWhile (fun x => x = c)).reverse.dropWhile (fun x => x = c)).reverse

/-- Python `str.strip()`: remove leading and trailing whitespace. -/
def pyStripWs (s : List Char) : List Char :=
  ((s.dropWhile isPyWs).reverse.dropWhile isPyWs).reverse

/-- Does `needle` occur as a contiguous subsequence of `hay`
(Python `needle in hay` on strings)? -/
def containsSeq (needle : List Char) : List Char → Bool
  | [] => needle.isEmpty
  | c :: rest => needle.isPrefixOf (c :: rest) || containsSeq needle rest

/-- Case-insensitive containment, `a.lower() in b.lower()`. -/
def containsCI (needle hay : List Char) : Bool :=
  containsSeq (lowerL needle) (lowerL hay)

/-- Python `str.startswith` for a single character. -/
def headIs (c : Char) : List Char → Bool
  | [] => false
  | x :: _ => x = c

/-- Python `s.capitalize()`-free helper used by the source as
`s[0].upper() + s[1:] if not s[0].isupper() else s`. -/
def upperFirstIfLower (s : List Char) : List Char :=
  match s with
  | [] => []
  | c :: rest => if c.isUpper then c :: rest else c.toUpper :: rest

/-- Python `str.capitalize()`: first character upper-cased, the rest
lower-cased. -/
def pyCapitalize (s : List Char) : List Char :=
  match s with
  | [] => []
  | c :: rest => c.toUpper :: rest.map Char.toLower

end JavaText

namespace EndpointParser

open JavaText

/-!
`EndpointParser._parse_file`, lines 239-289: the controller base path is
the `@RequestMapping` group stripped of leading and trailing slashes
(`base_path = request_mapping_match.group(1).strip('/')`), and each
endpoint path is assembled from `base_path` and the method-level mapping
path by the four-way conditional of lines 280-289.
-/

/-- Lines 280-289 of `_parse_file`: assemble the full endpoint path from
the already-stripped base path and the raw method sub-path. -/
def construct_full_path (base_path path : List Char) : List Char :=
  if base_path ≠ [] then
    if headIs '/' path then
      '/' :: base_path ++ path
    else
      '/' :: base_path ++ '/' :: path
  else
    if ¬ headIs '/' path then
      '/' :: path
    else
      path

/-- Base-path stripping (line 243) composed with the path assembly of
lines 280-289: the endpoint path produced for a controller whose
`@RequestMapping` value is `rawBase` and a method whose mapping value is
`path`. -/
def endpoint_full_path (rawBase path : List Char) : List Char :=
  construct_full_path (pyStripChar '/' rawBase) path

end EndpointParser

namespace EndpointParser

open JavaText

/-- C1 (amended): when the method sub-path carries at most one leading
slash, the endpoint path is the stripped base joined to the sub-path
core by exactly one separating slash. -/
theorem c1_full_path_single_separator (rawBase sub b s : List Char)
    (hb : pyStripChar '/' rawBase = b) (hbne : b ≠ [])
    (hs : headIs '/' s = false)
    (hsub : sub = '/' :: s ∨ sub = s) :
    endpoint_full_path rawBase sub = '/' :: b ++ '/' :: s := by
  rcases hsub with h | h
  · simp [endpoint_full_path, construct_full_path, hb, hbne, h, headIs]
  · simp [endpoint_full_path, construct_full_path, hb, hbne, h, hs]

/-- C1 witness: the two examples from the specification, obtained from
the amended theorem at concrete inputs. -/
theorem c1_full_path_single_separator_witness :
    endpoint_full_path ("/api".toList) ("/x".toList) = ("/api/x".toList) ∧
    endpoint_full_path ("/api/".toList) ("x".toList) = ("/api/x".toList) := by
  constructor
  · exact (c1_full_path_single_separator ("/api".toList) ("/x".toList)
      ("api".toList) ("x".toList) (by decide) (by decide) (by decide)
      (Or.inl (by decide))).trans (by decide)
  · exact (c1_full_path_single_separator ("/api/".toList) ("x".toList)
      ("api".toList) ("x".toList) (by decide) (by decide) (by decide)
      (Or.inr rfl)).trans (by decide)

/-- C1 counterexample: a sub-path with two leading slashes is passed
through unchanged, so the result contains a duplicated slash, contrary
to the claim that the parts are joined by exactly one separating slash
regardless of leading slashes. -/
theorem c1_full_path_counterexample :
    endpoint_full_path ("/api".toList) ("//x".toList) = ("/api//x".toList) ∧
    containsSeq ("//".toList) (endpoint_full_path ("/api".toList) ("//x".toList)) = true ∧
    endpoint_full_path ("/api".toList) ("//x".toList) ≠ ("/api/x".toList) :=
  ⟨by decide, by decide, by decide⟩

end EndpointParser

/-- Shorthand for the `List Char` model of Python strings. -/
abbrev Str := List Char

namespace FlowAnalyzer

open JavaText

/-- One entry of a parsed class's `methods` list, as built by
`FlowAnalyzer._extract_methods`: every produced dictionary carries the
keys `name`, `annotations`, `return_type`, `body` and `calls`; the
`calls` entries are `(class, method)` pairs. -/
structure MethodInfo where
  name : Str
  annotations : List Str
  return_type : Str
  calls : List (Str × Str)

/-- One entry of `self.parsed_classes`: `analyze_flows` stores for every
class its parsed information together with a `class_type` computed by
`_determine_class_type`. -/
structure ClassInfo where
  class_type : Str
  methods : List MethodInfo

/-- The `self.parsed_classes` dictionary (insertion-ordered). -/
abbrev ParsedClasses := List (Str × ClassInfo)

/-- `FlowAnalyzer._determine_class_type_from_name`. -/
def determine_class_type_from_name (class_name : Str) : Str :=
  if containsSeq ("Controller".toList) class_name then
    ("controller".toList)
  else if containsSeq ("Service".toList) class_name ||
      containsSeq ("Manager".toList) class_name then
    ("service".toList)
  else if containsSeq ("Repository".toList) class_name ||
      containsSeq ("Dao".toList) class_name ||
      containsSeq ("Repo".toList) class_name then
    ("repository".toList)
  else if containsSeq ("Validator".toList) class_name then
    ("validator".toList)
  else
    ("unknown".toList)

/-- The `f"{class_name}.{method_name}"` keys of the visited set. -/
def mkKey (class_name method_name : Str) : Str :=
  class_name ++ '.' :: method_name

/-- A node of the flow tree built by `_analyze_method_flow`.  A `none`
in `calls`, `level` or `path` models the absence of the corresponding
dictionary key; `is_cycle` is `true` exactly when the Python dictionary
carries `is_cycle: True` (the key is otherwise absent, which the
consumers treat the same as `False`). -/
inductive FlowNode where
  | mk (class_name method class_type return_type : Str) (is_cycle : Bool)
      (calls : Option (List FlowNode)) (level : Option Nat)
      (path : Option (List Str))

def FlowNode.class_name : FlowNode → Str
  | .mk c _ _ _ _ _ _ _ => c

def FlowNode.method : FlowNode → Str
  | .mk _ m _ _ _ _ _ _ => m

def FlowNode.class_type : FlowNode → Str
  | .mk _ _ t _ _ _ _ _ => t

def FlowNode.return_type : FlowNode → Str
  | .mk _ _ _ r _ _ _ _ => r

def FlowNode.is_cycle : FlowNode → Bool
  | .mk _ _ _ _ b _ _ _ => b

def FlowNode.calls : FlowNode → Option (List FlowNode)
  | .mk _ _ _ _ _ cs _ _ => cs

/-- The annotation names against which `_analyze_method_flow` matches a
method when the exact name is absent (line 374). -/
def mappingAnnoNames : List Str :=
  [("GetMapping".toList), ("PostMapping".toList), ("PutMapping".toList),
   ("DeleteMapping".toList), ("RequestMapping".toList)]

/-- Lines 341-351: `self.parsed_classes.get(class_name)` followed, on
failure, by the case-insensitive substring scan over all known classes;
the chosen key replaces `class_name`. -/
def resolveClass (pc : ParsedClasses) (class_name : Str) :
    Option (Str × ClassInfo) :=
  match pc.find? (fun p => p.1 == class_name) with
  | some p => some p
  | none =>
      pc.find? (fun p =>
        containsCI class_name p.1 || containsCI p.1 class_name)

/-- Lines 363-382: exact method-name lookup followed, on failure, by the
single pass that takes the first method carrying one of the mapping
annotations or a case-insensitively similar name. -/
def resolveMethod (ci : ClassInfo) (method_name : Str) : Option MethodInfo :=
  match ci.methods.find? (fun mi => mi.name == method_name) with
  | some mi => some mi
  | none =>
      ci.methods.find? (fun mi =>
        mi.annotations.any (fun a => mappingAnnoNames.contains a) ||
        containsCI method_name mi.name || containsCI mi.name method_name)

/-- Every `(class, method)` key that occurs as a call target anywhere in
the parsed classes: the universe from which every recursive invocation
of `_analyze_method_flow` below the root draws its key. -/
def allCallKeys (pc : ParsedClasses) : List Str :=
  pc.flatMap (fun p =>
    p.2.methods.flatMap (fun mi =>
      mi.calls.map (fun cm => mkKey cm.1 cm.2)))

/-- Number of call-target keys not yet on the visited path: the primary
component of the termination measure. -/
def remainingKeys (pc : ParsedClasses) (visited : List Str) : Nat :=
  ((allCallKeys pc).filter (fun k => !(visited.contains k))).length

theorem resolveClass_mem {pc : ParsedClasses} {c : Str}
    {p : Str × ClassInfo} (h : resolveClass pc c = some p) : p ∈ pc := by
  unfold resolveClass at h
  rcases hf : pc.find? (fun q => q.1 == c) with _ | q
  · rw [hf] at h
    exact List.mem_of_find?_eq_some h
  · rw [hf] at h
    cases h
    exact List.mem_of_find?_eq_some hf

theorem resolveMethod_mem {ci : ClassInfo} {m : Str} {mi : MethodInfo}
    (h : resolveMethod ci m = some mi) : mi ∈ ci.methods := by
  unfold resolveMethod at h
  rcases hf : ci.methods.find? (fun x => x.name == m) with _ | q
  · rw [hf] at h
    exact List.mem_of_find?_eq_some h
  · rw [hf] at h
    cases h
    exact List.mem_of_find?_eq_some hf

theorem mem_allCallKeys {pc : ParsedClasses} {p : Str × ClassInfo}
    {mi : MethodInfo} {cm : Str × Str} (hp : p ∈ pc)
    (hmi : mi ∈ p.2.methods) (hcm : cm ∈ mi.calls) :
    mkKey cm.1 cm.2 ∈ allCallKeys pc := by
  unfold allCallKeys
  exact List.mem_flatMap.mpr ⟨p, hp, List.mem_flatMap.mpr
    ⟨mi, hmi, List.mem_map.mpr ⟨cm, hcm, rfl⟩⟩⟩

theorem filter_visited_decomp (K : List Str) (k : Str) (v : List Str) :
    K.filter (fun x => !((k :: v).contains x)) =
      (K.filter (fun x => !(v.contains x))).filter (fun x => !(x == k)) := by
  rw [List.filter_filter]
  apply List.filter_congr
  intro a _
  rw [List.contains_cons, Bool.not_or, Bool.and_comm]

theorem length_filter_out_mem_lt {L : List Str} {k : Str} (hk : k ∈ L) :
    (L.filter (fun x => !(x == k))).length < L.length := by
  induction L with
  | nil => cases hk
  | cons a L ih =>
      rcases hak : (a == k) with _ | _
      · have hkL : k ∈ L := by
          rcases List.mem_cons.mp hk with rfl | hmem
          · rw [beq_self_eq_true] at hak
            cases hak
          · exact hmem
        have h := ih hkL
        simp only [List.filter_cons, hak, Bool.not_false]
        rw [if_pos trivial]
        simp only [List.length_cons]
        omega
      · simp only [List.filter_cons, hak, Bool.not_true]
        rw [if_neg (by decide)]
        have := List.length_filter_le (fun x => !(x == k)) L
        simp only [List.length_cons]
        omega

theorem filter_visited_cons_le (K : List Str) (k : Str) (v : List Str) :
    (K.filter (fun x => !((k :: v).contains x))).length ≤
      (K.filter (fun x => !(v.contains x))).length := by
  rw [filter_visited_decomp]
  exact List.length_filter_le _ _

theorem filter_visited_cons_lt (K : List Str) (k : Str) (v : List Str)
    (hkK : k ∈ K) (hkv : v.contains k = false) :
    (K.filter (fun x => !((k :: v).contains x))).length <
      (K.filter (fun x => !(v.contains x))).length := by
  rw [filter_visited_decomp]
  apply length_filter_out_mem_lt
  apply List.mem_filter.mpr
  refine ⟨hkK, ?_⟩
  rw [hkv]
  rfl

theorem filter_visited_cons_of_not_mem (K : List Str) (k : Str)
    (v : List Str) (hkK : k ∉ K) :
    (K.filter (fun x => !((k :: v).contains x))).length =
      (K.filter (fun x => !(v.contains x))).length := by
  rw [filter_visited_decomp]
  rw [List.filter_eq_self.mpr]
  intro a ha
  have haK : a ∈ K := (List.mem_filter.mp ha).1
  have : a ≠ k := fun h => hkK (h ▸ haK)
  simp [this]

theorem remainingKeys_cons_le (pc : ParsedClasses) (k : Str)
    (v : List Str) :
    remainingKeys pc (k :: v) ≤ remainingKeys pc v :=
  filter_visited_cons_le (allCallKeys pc) k v

theorem remainingKeys_cons_lt (pc : ParsedClasses) (k : Str)
    (v : List Str) (hkK : k ∈ allCallKeys pc)
    (hkv : v.contains k = false) :
    remainingKeys pc (k :: v) < remainingKeys pc v :=
  filter_visited_cons_lt (allCallKeys pc) k v hkK hkv

theorem remainingKeys_cons_of_not_mem (pc : ParsedClasses) (k : Str)
    (v : List Str) (hkK : k ∉ allCallKeys pc) :
    remainingKeys pc (k :: v) = remainingKeys pc v :=
  filter_visited_cons_of_not_mem (allCallKeys pc) k v hkK

end FlowAnalyzer

namespace FlowAnalyzer

open JavaText

/-- `FlowAnalyzer._analyze_method_flow` (lines 311-433).  The visited
set is received by value and extended with the key of the current
invocation before recursing (`visited.add(method_key)` followed by
`visited.copy()` per branch, which persistent lists model directly);
the cycle check compares the original, un-remapped key.  Lazy body
extraction (lines 393-400) is dead for classes coming from
`_extract_methods`, which always stores the `body` and `calls` keys, so
`calls` is read from the method record.  Termination measure: the
number of call-target keys not yet visited, paired with an indicator
that is `0` once the current key is itself a call target (every key
below the root is). -/
def analyze_method_flow (pc : ParsedClasses) (class_name method_name : Str)
    (visited : List Str) : FlowNode :=
  if hvis : visited.contains (mkKey class_name method_name) then
    FlowNode.mk class_name method_name
      (determine_class_type_from_name class_name) ("void".toList) true
      none none none
  else
    match hc : resolveClass pc class_name with
    | none =>
        FlowNode.mk class_name method_name
          (determine_class_type_from_name class_name) ("void".toList) false
          none none none
    | some (cname, cinfo) =>
        match hm : resolveMethod cinfo method_name with
        | none =>
            FlowNode.mk cname method_name cinfo.class_type ("void".toList)
              false none none none
        | some mi =>
            FlowNode.mk cname method_name cinfo.class_type mi.return_type
              false
              (some (((mi.calls.filter (fun cm =>
                  !(cm.1 == ([] : Str) || cm.2 == ([] : Str)) &&
                  !(cm.1 == cname && cm.2 == method_name))).attach).map
                (fun x => analyze_method_flow pc x.1.1 x.1.2
                  (mkKey class_name method_name :: visited))))
              none none
termination_by
  (remainingKeys pc visited,
   if (allCallKeys pc).contains (mkKey class_name method_name) then 0 else 1)
decreasing_by
  have hx : x.1 ∈ mi.calls := (List.mem_filter.mp x.2).1
  have hmem : mkKey x.1.1 x.1.2 ∈ allCallKeys pc :=
    mem_allCallKeys (resolveClass_mem hc) (resolveMethod_mem hm) hx
  have hbit : ((allCallKeys pc).contains (mkKey x.1.1 x.1.2)) = true :=
    List.elem_iff.mpr hmem
  have hvf : visited.contains (mkKey class_name method_name) = false := by
    rcases h : visited.contains (mkKey class_name method_name) with _ | _
    · rfl
    · exact absurd h hvis
  by_cases hk : mkKey class_name method_name ∈ allCallKeys pc
  · exact Prod.Lex.left _ _ (remainingKeys_cons_lt pc _ visited hk hvf)
  · rw [remainingKeys_cons_of_not_mem pc _ visited hk, hbit,
      if_neg (fun hcon => hk (List.elem_iff.mp hcon))]
    exact Prod.Lex.right _ (by simp)

end FlowAnalyzer

namespace FlowAnalyzer

open JavaText

mutual

/-- Height of a flow tree: a node without a `calls` key counts 1, an
expanded node counts one more than its deepest child. -/
def FlowNode.depth : FlowNode → Nat
  | .mk _ _ _ _ _ none _ _ => 1
  | .mk _ _ _ _ _ (some cs) _ _ => 1 + depthList cs

/-- Greatest depth among a list of flow nodes. -/
def depthList : List FlowNode → Nat
  | [] => 0
  | t :: ts => max (FlowNode.depth t) (depthList ts)

end

/-- Fuel-indexed restatement of `analyze_method_flow`, used to evaluate
the analysis on concrete inputs; `amfFuel_eq_analyze` below shows that
any fuel above the termination measure computes `analyze_method_flow`
itself. -/
def amfFuel : Nat → ParsedClasses → Str → Str → List Str → FlowNode
  | 0, _, class_name, method_name, _ =>
      FlowNode.mk class_name method_name ([] : Str) ([] : Str) false
        none none none
  | fuel + 1, pc, class_name, method_name, visited =>
      if visited.contains (mkKey class_name method_name) then
        FlowNode.mk class_name method_name
          (determine_class_type_from_name class_name) ("void".toList) true
          none none none
      else
        match resolveClass pc class_name with
        | none =>
            FlowNode.mk class_name method_name
              (determine_class_type_from_name class_name) ("void".toList)
              false none none none
        | some (cname, cinfo) =>
            match resolveMethod cinfo method_name with
            | none =>
                FlowNode.mk cname method_name cinfo.class_type
                  ("void".toList) false none none none
            | some mi =>
                FlowNode.mk cname method_name cinfo.class_type
                  mi.return_type false
                  (some ((mi.calls.filter (fun cm =>
                      !(cm.1 == ([] : Str) || cm.2 == ([] : Str)) &&
                      !(cm.1 == cname && cm.2 == method_name))).map
                    (fun cm => amfFuel fuel pc cm.1 cm.2
                      (mkKey class_name method_name :: visited))))
                  none none

end FlowAnalyzer

namespace FlowAnalyzer

open JavaText

theorem attach_map_amf (pc : ParsedClasses) (v : List Str)
    (l : List (Str × Str)) :
    l.attach.map (fun x => analyze_method_flow pc x.1.1 x.1.2 v) =
      l.map (fun cm => analyze_method_flow pc cm.1 cm.2 v) := by
  rw [List.attach, List.attachWith, List.map_pmap]
  exact List.pmap_eq_map (fun x => x ∈ l)
    (fun cm => analyze_method_flow pc cm.1 cm.2 v) l
    (fun _ h => h)

/-- Any fuel above the termination measure makes the fuel-indexed
restatement compute `analyze_method_flow` exactly: the recursion of the
source terminates within that bound on every input. -/
theorem amfFuel_eq_analyze (pc : ParsedClasses) :
    ∀ (fuel : Nat) (c m : Str) (v : List Str),
      2 * remainingKeys pc v +
        (if (allCallKeys pc).contains (mkKey c m) then 0 else 1) < fuel →
      amfFuel fuel pc c m v = analyze_method_flow pc c m v := by
  intro fuel
  induction fuel with
  | zero =>
      intro c m v h
      omega
  | succ f ih =>
      intro c m v h
      rw [analyze_method_flow]
      simp only [amfFuel]
      by_cases hvis : v.contains (mkKey c m) = true
      · rw [if_pos hvis, dif_pos hvis]
      · rw [if_neg hvis, dif_neg hvis]
        rcases hc : resolveClass pc c with _ | ⟨cname, cinfo⟩
        · simp only [hc]
        · simp only [hc]
          rcases hm : resolveMethod cinfo m with _ | mi
          · simp only [hm]
          · simp only [hm]
            rw [attach_map_amf]
            congr 1
            congr 1
            apply List.map_congr_left
            intro cm hcm
            have hx : cm ∈ mi.calls := (List.mem_filter.mp hcm).1
            have hmem : mkKey cm.1 cm.2 ∈ allCallKeys pc :=
              mem_allCallKeys (resolveClass_mem hc) (resolveMethod_mem hm) hx
            have hbit : ((allCallKeys pc).contains (mkKey cm.1 cm.2)) = true :=
              List.elem_iff.mpr hmem
            have hvf : v.contains (mkKey c m) = false := by
              rcases hq : v.contains (mkKey c m) with _ | _
              · rfl
              · exact absurd hq hvis
            apply ih
            rw [hbit, if_pos rfl]
            by_cases hk : mkKey c m ∈ allCallKeys pc
            · have hlt := remainingKeys_cons_lt pc (mkKey c m) v hk hvf
              have hb0 : ((allCallKeys pc).contains (mkKey c m)) = true :=
                List.elem_iff.mpr hk
              rw [hb0, if_pos rfl] at h
              omega
            · have heq := remainingKeys_cons_of_not_mem pc (mkKey c m) v hk
              have hb1 : ((allCallKeys pc).contains (mkKey c m)) = false := by
                rcases hq : (allCallKeys pc).contains (mkKey c m) with _ | _
                · rfl
                · exact absurd (List.elem_iff.mp hq) hk
              rw [hb1] at h
              rw [if_neg (by decide)] at h
              omega

end FlowAnalyzer

namespace FlowAnalyzer

open JavaText

/-- Number of distinct call-target keys not yet on the visited path. -/
def remainingDistinct (pc : ParsedClasses) (visited : List Str) : Nat :=
  (((allCallKeys pc).dedup).filter (fun k => !(visited.contains k))).length

theorem remainingDistinct_cons_lt (pc : ParsedClasses) (k : Str)
    (v : List Str) (hk : k ∈ allCallKeys pc)
    (hv : v.contains k = false) :
    remainingDistinct pc (k :: v) < remainingDistinct pc v :=
  filter_visited_cons_lt ((allCallKeys pc).dedup) k v
    (List.mem_dedup.mpr hk) hv

theorem remainingDistinct_cons_of_not_mem (pc : ParsedClasses) (k : Str)
    (v : List Str) (hk : k ∉ allCallKeys pc) :
    remainingDistinct pc (k :: v) = remainingDistinct pc v :=
  filter_visited_cons_of_not_mem ((allCallKeys pc).dedup) k v
    (fun h => hk (List.mem_dedup.mp h))

theorem depthList_le {cs : List FlowNode} {b : Nat}
    (h : ∀ t ∈ cs, FlowNode.depth t ≤ b) : depthList cs ≤ b := by
  induction cs with
  | nil =>
      rw [depthList]
      omega
  | cons t ts ih =>
      rw [depthList]
      exact max_le (h t (List.mem_cons_self t ts))
        (ih (fun x hx => h x (List.mem_cons_of_mem t hx)))

/-- Depth bound for the flow tracer: the height of the produced tree is
at most the number of distinct unvisited call-target keys, plus one for
the root invocation when its own key is not a call target, plus the
terminal node. -/
theorem amf_depth_aux (pc : ParsedClasses) :
    ∀ (N : Nat) (c m : Str) (v : List Str),
      2 * remainingKeys pc v +
        (if (allCallKeys pc).contains (mkKey c m) then 0 else 1) ≤ N →
      FlowNode.depth (analyze_method_flow pc c m v) ≤
        remainingDistinct pc v +
          (if (allCallKeys pc).contains (mkKey c m) then 0 else 1) + 1 := by
  intro N
  induction N using Nat.strong_induction_on with
  | _ N ih =>
      intro c m v hN
      rw [analyze_method_flow]
      by_cases hvis : v.contains (mkKey c m) = true
      · rw [dif_pos hvis]
        rw [FlowNode.depth]
        omega
      · rw [dif_neg hvis]
        rcases hc : resolveClass pc c with _ | ⟨cname, cinfo⟩
        · simp only [hc]
          rw [FlowNode.depth]
          omega
        · simp only [hc]
          rcases hm : resolveMethod cinfo m with _ | mi
          · simp only [hm]
            rw [FlowNode.depth]
            omega
          · simp only [hm]
            rw [FlowNode.depth]
            rw [attach_map_amf]
            have hvf : v.contains (mkKey c m) = false := by
              rcases hq : v.contains (mkKey c m) with _ | _
              · rfl
              · exact absurd hq hvis
            have hchild : ∀ t ∈ (mi.calls.filter (fun cm =>
                !(cm.1 == ([] : Str) || cm.2 == ([] : Str)) &&
                !(cm.1 == cname && cm.2 == m))).map
                  (fun cm => analyze_method_flow pc cm.1 cm.2
                    (mkKey c m :: v)),
                FlowNode.depth t ≤ remainingDistinct pc (mkKey c m :: v) + 1 := by
              intro t ht
              rcases List.mem_map.mp ht with ⟨cm, hcm, rfl⟩
              have hx : cm ∈ mi.calls := (List.mem_filter.mp hcm).1
              have hmem : mkKey cm.1 cm.2 ∈ allCallKeys pc :=
                mem_allCallKeys (resolveClass_mem hc) (resolveMethod_mem hm) hx
              have hbit : ((allCallKeys pc).contains (mkKey cm.1 cm.2)) = true :=
                List.elem_iff.mpr hmem
              have hmlt : 2 * remainingKeys pc (mkKey c m :: v) +
                  (if (allCallKeys pc).contains (mkKey cm.1 cm.2) then 0 else 1) < N := by
                rw [hbit, if_pos rfl]
                by_cases hk : mkKey c m ∈ allCallKeys pc
                · have hlt := remainingKeys_cons_lt pc (mkKey c m) v hk hvf
                  have hb0 : ((allCallKeys pc).contains (mkKey c m)) = true :=
                    List.elem_iff.mpr hk
                  rw [hb0, if_pos rfl] at hN
                  omega
                · have heq := remainingKeys_cons_of_not_mem pc (mkKey c m) v hk
                  have hb1 : ((allCallKeys pc).contains (mkKey c m)) = false := by
                    rcases hq : (allCallKeys pc).contains (mkKey c m) with _ | _
                    · rfl
                    · exact absurd (List.elem_iff.mp hq) hk
                  rw [hb1] at hN
                  rw [if_neg (by decide)] at hN
                  omega
              have := ih _ hmlt cm.1 cm.2 (mkKey c m :: v) (le_refl _)
              rw [hbit, if_pos rfl] at this
              omega
            have hlist := depthList_le hchild
            by_cases hk : mkKey c m ∈ allCallKeys pc
            · have hlt := remainingDistinct_cons_lt pc (mkKey c m) v hk hvf
              have hb0 : ((allCallKeys pc).contains (mkKey c m)) = true :=
                List.elem_iff.mpr hk
              rw [hb0, if_pos rfl]
              omega
            · have heq := remainingDistinct_cons_of_not_mem pc (mkKey c m) v hk
              have hb1 : ((allCallKeys pc).contains (mkKey c m)) = false := by
                rcases hq : (allCallKeys pc).contains (mkKey c m) with _ | _
                · rfl
                · exact absurd (List.elem_iff.mp hq) hk
              rw [hb1, if_neg (by decide)]
              omega

/-- A two-class call graph with the cycle
`AController.m -> BService.n -> AController.m`, shaped exactly like the
entries `analyze_flows` stores in `parsed_classes`. -/
def pcAB : ParsedClasses :=
  [(("AController".toList),
    ⟨("controller".toList),
     [⟨("m".toList), [], ("void".toList),
       [((("BService".toList)), ("n".toList))]⟩]⟩),
   (("BService".toList),
    ⟨("service".toList),
     [⟨("n".toList), [], ("void".toList),
       [((("AController".toList)), ("m".toList))]⟩]⟩)]

/-- The flow tree the tracer produces on `pcAB` from `AController.m`:
the repeated pair terminates in a cycle-flagged leaf at depth three. -/
def cycleExampleTree : FlowNode :=
  FlowNode.mk ("AController".toList) ("m".toList) ("controller".toList)
    ("void".toList) false
    (some [FlowNode.mk ("BService".toList) ("n".toList) ("service".toList)
      ("void".toList) false
      (some [FlowNode.mk ("AController".toList) ("m".toList)
        ("controller".toList) ("void".toList) true none none none])
      none none])
    none none

theorem pcAB_fuel_eval :
    amfFuel 9 pcAB ("AController".toList) ("m".toList) [] =
      cycleExampleTree := by
  rfl

theorem pcAB_eval :
    analyze_method_flow pcAB ("AController".toList) ("m".toList) [] =
      cycleExampleTree :=
  (amfFuel_eq_analyze pcAB 9 ("AController".toList) ("m".toList) []
    (by decide)).symm.trans pcAB_fuel_eval

theorem cycleExampleTree_depth : FlowNode.depth cycleExampleTree = 3 := by
  rw [cycleExampleTree]
  simp only [FlowNode.depth, depthList.eq_def]
  decide

/-- C2: flow tracing terminates on every input call graph.  A
`(class, method)` key already on the current root-to-node path yields a
terminal cycle-flagged node with no children; because the visited set
is path-scoped, the height of any produced tree is bounded by the
number of distinct call-target keys not yet visited (plus the root
invocation and the terminal node); and on the concrete cycle
`AController.m -> BService.n -> AController.m` the terminal cycle node
appears at depth `2 + 1`, the number of distinct methods in the cycle
plus one. -/
theorem c2_flow_cycle_termination :
    (∀ (pc : ParsedClasses) (c m : Str) (v : List Str),
        v.contains (mkKey c m) = true →
        analyze_method_flow pc c m v =
          FlowNode.mk c m (determine_class_type_from_name c)
            ("void".toList) true none none none) ∧
    (∀ (pc : ParsedClasses) (c m : Str) (v : List Str),
        FlowNode.depth (analyze_method_flow pc c m v) ≤
          remainingDistinct pc v + 2) ∧
    (analyze_method_flow pcAB ("AController".toList) ("m".toList) [] =
        cycleExampleTree ∧
      FlowNode.depth (analyze_method_flow pcAB ("AController".toList)
        ("m".toList) []) = 2 + 1 ∧
      remainingDistinct pcAB [] = 2) := by
  refine ⟨?_, ?_, pcAB_eval, ?_, ?_⟩
  · intro pc c m v h
    rw [analyze_method_flow]
    rw [dif_pos h]
  · intro pc c m v
    have h := amf_depth_aux pc
      (2 * remainingKeys pc v +
        (if (allCallKeys pc).contains (mkKey c m) then 0 else 1))
      c m v (le_refl _)
    rcases hk : ((allCallKeys pc).contains (mkKey c m)) with _ | _
    · rw [hk] at h
      rw [if_neg (by decide)] at h
      omega
    · rw [hk, if_pos rfl] at h
      omega
  · rw [pcAB_eval, cycleExampleTree_depth]
  · decide

/-- C2 witness: the cycle branch applied at a concrete visited path. -/
theorem c2_flow_cycle_termination_witness :
    analyze_method_flow pcAB ("AController".toList) ("m".toList)
      [("AController.m".toList)] =
      FlowNode.mk ("AController".toList) ("m".toList)
        ("controller".toList) ("void".toList) true none none none := by
  rw [c2_flow_cycle_termination.1 pcAB ("AController".toList)
    ("m".toList) [("AController.m".toList)] (by decide)]
  exact rfl

end FlowAnalyzer

namespace JavaText

/-- Word-boundary check after a literal (`\b`): the next character, if
any, is not a word character. -/
def boundaryOk : List Char → Bool
  | [] => true
  | c :: _ => !(isWordChar c)

/-- Does the pattern `lit\b` match at the head of `s`? -/
def matchWordBHere (pat s : List Char) : Bool :=
  pat.isPrefixOf s && boundaryOk (s.drop pat.length)

/-- `re.search` for a pattern of the shape `lit\b`. -/
def searchWordB (pat : List Char) : List Char → Bool
  | [] => matchWordBHere pat []
  | c :: rest => matchWordBHere pat (c :: rest) || searchWordB pat rest

/-- Consume the literal `kw` followed by `\s+` (at least one whitespace
character, then as many as possible; the source continuations all start
with non-whitespace, so the greedy consumption is exact). -/
def afterKw (kw : List Char) (s : List Char) : Option (List Char) :=
  if kw.isPrefixOf s then
    match s.drop kw.length with
    | [] => none
    | c :: rest => if isPyWs c then some ((c :: rest).dropWhile isPyWs) else none
  else none

end JavaText

namespace EndpointParser

open JavaText

/-- `class\s+(\w+)` anchored at `s`, capturing the name. -/
def classFrom (s : List Char) : Option Str :=
  match afterKw ("class".toList) s with
  | some r =>
      match r.span isWordChar with
      | (w, _) => if w.isEmpty then none else some w
  | none => none

/-- `(?:abstract\s+)?class\s+(\w+)` anchored at `s`. -/
def absClass (s : List Char) : Option Str :=
  match afterKw ("abstract".toList) s with
  | some r =>
      match classFrom r with
      | some w => some w
      | none => classFrom s
  | none => classFrom s

/-- Continuation of `matchClassDeclHere` after the `public` branch. -/
def restClassDecl (s : List Char) : Option Str :=
  match afterKw ("private".toList) s with
  | some r =>
      match absClass r with
      | some w => some w
      | none =>
          match afterKw ("protected".toList) s with
          | some r2 =>
              match absClass r2 with
              | some w => some w
              | none => absClass s
          | none => absClass s
  | none =>
      match afterKw ("protected".toList) s with
      | some r2 =>
          match absClass r2 with
          | some w => some w
          | none => absClass s
      | none => absClass s

/-- `(?:public\s+|private\s+|protected\s+)?(?:abstract\s+)?class\s+(\w+)`
anchored at `s`: the modifier alternatives are tried in order, then the
empty alternative. -/
def matchClassDeclHere (s : List Char) : Option Str :=
  match afterKw ("public".toList) s with
  | some r =>
      match absClass r with
      | some w => some w
      | none => restClassDecl s
  | none => restClassDecl s


/-- `re.search` over the whole content for the class declaration. -/
def searchClassDecl : List Char → Option Str
  | [] => matchClassDeclHere []
  | c :: rest =>
      match matchClassDeclHere (c :: rest) with
      | some w => some w
      | none => searchClassDecl rest

/-- `interface\s+(\w+)` anchored at `s`. -/
def interfaceFrom (s : List Char) : Option Str :=
  match afterKw ("interface".toList) s with
  | some r =>
      match r.span isWordChar with
      | (w, _) => if w.isEmpty then none else some w
  | none => none

/-- Continuation of `matchInterfaceDeclHere` after the `public` branch. -/
def restInterfaceDecl (s : List Char) : Option Str :=
  match afterKw ("private".toList) s with
  | some r =>
      match interfaceFrom r with
      | some w => some w
      | none =>
          match afterKw ("protected".toList) s with
          | some r2 =>
              match interfaceFrom r2 with
              | some w => some w
              | none => interfaceFrom s
          | none => interfaceFrom s
  | none =>
      match afterKw ("protected".toList) s with
      | some r2 =>
          match interfaceFrom r2 with
          | some w => some w
          | none => interfaceFrom s
      | none => interfaceFrom s

/-- `interface\s+(\w+)` with the optional modifier group, anchored. -/
def matchInterfaceDeclHere (s : List Char) : Option Str :=
  match afterKw ("public".toList) s with
  | some r =>
      match interfaceFrom r with
      | some w => some w
      | none => restInterfaceDecl s
  | none => restInterfaceDecl s



/-- `re.search` over the whole content for an interface declaration. -/
def searchInterfaceDecl : List Char → Option Str
  | [] => matchInterfaceDeclHere []
  | c :: rest =>
      match matchInterfaceDeclHere (c :: rest) with
      | some w => some w
      | none => searchInterfaceDecl rest

/-- `EndpointParser._extract_class_name`: first `class` declaration,
then first `interface` declaration. -/
def extract_class_name (content : Str) : Option Str :=
  match searchClassDecl content with
  | some w => some w
  | none => searchInterfaceDecl content

end EndpointParser

/-- Insertion-ordered dictionary with Python `dict` assignment
semantics: an existing key is updated in place, a new key is appended. -/
abbrev Dict (β : Type) := List (Str × β)

def dictSet {β : Type} (d : Dict β) (k : Str) (v : β) : Dict β :=
  match d with
  | [] => [(k, v)]
  | (k0, v0) :: rest =>
      if k0 == k then (k0, v) :: rest else (k0, v0) :: dictSet rest k v

def dictGet {β : Type} (d : Dict β) (k : Str) : Option β :=
  match d with
  | [] => none
  | (k0, v0) :: rest => if k0 == k then some v0 else dictGet rest k

def dictContains {β : Type} (d : Dict β) (k : Str) : Bool :=
  match d with
  | [] => false
  | (k0, _) :: rest => k0 == k || dictContains rest k

theorem dictContains_dictSet {β : Type} (d : Dict β) (k n : Str) (v : β) :
    dictContains (dictSet d k v) n = ((k == n) || dictContains d n) := by
  induction d with
  | nil => rfl
  | cons p rest ih =>
      rcases p with ⟨k0, v0⟩
      rcases hq : (k0 == k) with _ | _
      · rw [dictSet, if_neg (by rw [hq]; exact Bool.false_ne_true)]
        rw [dictContains, dictContains, ih, Bool.or_left_comm]
      · have hk : k0 = k := eq_of_beq hq
        cases hk
        rw [dictSet, if_pos hq]
        rw [dictContains, dictContains]
        rw [← Bool.or_assoc, Bool.or_self]

namespace EndpointParser

open JavaText

/-- `CONTROLLER_ANNOTATIONS`: `@RestController\b`, `@Controller\b`. -/
def hasControllerAnno (content : Str) : Bool :=
  searchWordB ("@RestController".toList) content ||
  searchWordB ("@Controller".toList) content

/-- `SERVICE_ANNOTATIONS`: `@Service\b`, `@Component\b`. -/
def hasServiceAnno (content : Str) : Bool :=
  searchWordB ("@Service".toList) content ||
  searchWordB ("@Component".toList) content

/-- The second `REPOSITORY_ANNOTATIONS` pattern
`extends\s+(?:JpaRepository|CrudRepository|MongoRepository)`,
anchored at `s`. -/
def matchExtendsRepoHere (s : List Char) : Bool :=
  match afterKw ("extends".toList) s with
  | some r =>
      ("JpaRepository".toList).isPrefixOf r ||
      ("CrudRepository".toList).isPrefixOf r ||
      ("MongoRepository".toList).isPrefixOf r
  | none => false

/-- `re.search` for the repository-inheritance pattern. -/
def searchExtendsRepoBase : List Char → Bool
  | [] => false
  | c :: rest => matchExtendsRepoHere (c :: rest) || searchExtendsRepoBase rest

/-- `REPOSITORY_ANNOTATIONS`: `@Repository\b` or inheritance from a
known repository base type. -/
def hasRepositoryAnno (content : Str) : Bool :=
  searchWordB ("@Repository".toList) content ||
  searchExtendsRepoBase content

/-- `ENTITY_ANNOTATIONS`: `@Entity\b`, `@Document\b`, `@Table\b`. -/
def hasEntityAnno (content : Str) : Bool :=
  searchWordB ("@Entity".toList) content ||
  searchWordB ("@Document".toList) content ||
  searchWordB ("@Table".toList) content

/-- Method entry stored in a service record by `_parse_service_file`. -/
structure SvcMethod where
  name : Str
  implementation : Str
  repository_calls : List (Str × Str)

/-- Value stored in `self.services`. -/
structure ServiceRec where
  methods : List SvcMethod
  file_path : Str

/-- Method entry stored in a repository record. -/
structure RepoMethod where
  name : Str
  entity_type : Option Str

/-- Value stored in `self.repositories`; `entity_type` is the key
optionally added by `_parse_repository_file`. -/
structure RepositoryRec where
  methods : List RepoMethod
  file_path : Str
  entity_type : Option Str

/-- A plain field entry of an entity record. -/
structure EntityField where
  name : Str
  ftype : Str

/-- A relationship entry of an entity record: the source stores only
the relationship type and the target entity. -/
structure EntityRel where
  rel_type : Str
  target_entity : Str

/-- Value stored in `self.entities`; `table_name` and `relationships`
model the keys added only by `_parse_entity_file`. -/
structure EntityRec where
  fields : List EntityField
  file_path : Str
  table_name : Option Str
  relationships : Option (List EntityRel)

/-- The five per-instance dictionaries of `EndpointParser`. -/
structure EPState where
  services : Dict ServiceRec
  repositories : Dict RepositoryRec
  entities : Dict EntityRec
  service_repo_mappings : Dict (List Str)
  controller_service_mappings : Dict (List Str)

/-- The reset state of lines 88-93 of `parse_endpoints`. -/
def emptyEPState : EPState := ⟨[], [], [], [], []⟩

/-- The four classification outcomes that leave a trace;
`_identify_class_type` stores controllers in no map. -/
inductive ClassKind where
  | controller
  | service
  | repository
  | entity
deriving DecidableEq

/-- The decision chain of `_identify_class_type` (lines 185-210):
controller, then service, then repository, then entity; `none` when no
marker matches. -/
def identify_kind (content : Str) : Option ClassKind :=
  if hasControllerAnno content then some ClassKind.controller
  else if hasServiceAnno content then some ClassKind.service
  else if hasRepositoryAnno content then some ClassKind.repository
  else if hasEntityAnno content then some ClassKind.entity
  else none

/-- `EndpointParser._identify_class_type`: extract the primary class
name, classify the content, and record the class in at most one of the
three maps (controllers are recorded nowhere by this pass). -/
def identify_class_type (st : EPState) (file_path : Str) (content : Str) :
    EPState :=
  match extract_class_name content with
  | none => st
  | some class_name =>
      match identify_kind content with
      | some ClassKind.controller => st
      | some ClassKind.service =>
          { st with services := dictSet st.services class_name ⟨[], file_path⟩ }
      | some ClassKind.repository =>
          { st with repositories :=
              dictSet st.repositories class_name ⟨[], file_path, none⟩ }
      | some ClassKind.entity =>
          { st with entities :=
              dictSet st.entities class_name ⟨[], file_path, none, none⟩ }
      | none => st

/-- In how many of the three maps does `n` appear? -/
def countMaps (st : EPState) (n : Str) : Nat :=
  (if dictContains st.services n then 1 else 0) +
  (if dictContains st.repositories n then 1 else 0) +
  (if dictContains st.entities n then 1 else 0)

/-- Does `n` appear in any of the three maps? -/
def anyMap (st : EPState) (n : Str) : Bool :=
  dictContains st.services n || dictContains st.repositories n ||
  dictContains st.entities n

/-- The first pass of `parse_endpoints` (lines 97-99): classify every
file. -/
def first_pass (files : List (Str × Str)) (st : EPState) : EPState :=
  files.foldl (fun st f => identify_class_type st f.1 f.2) st

end EndpointParser

namespace EndpointParser

open JavaText

theorem beq_false_of_ne {a b : Str} (h : a ≠ b) : (a == b) = false := by
  rcases hq : (a == b) with _ | _
  · rfl
  · exact absurd (eq_of_beq hq) h

theorem anyMap_dictSet_services (st : EPState) (c n : Str)
    (v : ServiceRec) :
    anyMap { st with services := dictSet st.services c v } n =
      ((c == n) || anyMap st n) := by
  rw [anyMap, anyMap]
  simp [dictContains_dictSet, Bool.or_assoc, Bool.or_comm, Bool.or_left_comm]

theorem anyMap_dictSet_repositories (st : EPState) (c n : Str)
    (v : RepositoryRec) :
    anyMap { st with repositories := dictSet st.repositories c v } n =
      ((c == n) || anyMap st n) := by
  rw [anyMap, anyMap]
  simp [dictContains_dictSet, Bool.or_assoc, Bool.or_comm, Bool.or_left_comm]

theorem anyMap_dictSet_entities (st : EPState) (c n : Str)
    (v : EntityRec) :
    anyMap { st with entities := dictSet st.entities c v } n =
      ((c == n) || anyMap st n) := by
  rw [anyMap, anyMap]
  simp [dictContains_dictSet, Bool.or_assoc, Bool.or_comm, Bool.or_left_comm]

theorem c3_first_pass_aux :
    ∀ (files : List (Str × Str)) (st : EPState) (processed : List Str),
      (∀ n, countMaps st n ≤ 1) →
      (∀ n, anyMap st n = true → n ∈ processed) →
      (files.filterMap (fun f => extract_class_name f.2)).Nodup →
      (∀ c ∈ files.filterMap (fun f => extract_class_name f.2),
        c ∉ processed) →
      ∀ n, countMaps (first_pass files st) n ≤ 1 := by
  intro files
  induction files with
  | nil =>
      intro st processed h1 _ _ _ n
      exact h1 n
  | cons f files ih =>
      intro st processed h1 h2 h3 h4 n
      have hfold : first_pass (f :: files) st =
          first_pass files (identify_class_type st f.1 f.2) := rfl
      rw [hfold]
      rcases hcn : extract_class_name f.2 with _ | c
      · have hstep : identify_class_type st f.1 f.2 = st := by
          rw [identify_class_type, hcn]
        rw [hstep]
        have hfm : (f :: files).filterMap
            (fun f => extract_class_name f.2) =
            files.filterMap (fun f => extract_class_name f.2) := by
          rw [List.filterMap_cons]
          rw [hcn]
        exact ih st processed h1 h2 (by rw [hfm] at h3; exact h3)
          (by rw [hfm] at h4; exact h4) n
      · have hfm : (f :: files).filterMap
            (fun f => extract_class_name f.2) =
            c :: files.filterMap (fun f => extract_class_name f.2) := by
          rw [List.filterMap_cons]
          rw [hcn]
        have hnodup : (files.filterMap
            (fun f => extract_class_name f.2)).Nodup := by
          rw [hfm] at h3
          exact (List.nodup_cons.mp h3).2
        have hcnotail : c ∉ files.filterMap
            (fun f => extract_class_name f.2) := by
          rw [hfm] at h3
          exact (List.nodup_cons.mp h3).1
        have hcproc : c ∉ processed := by
          apply h4
          rw [hfm]
          exact List.mem_cons_self _ _
        have htail : ∀ x ∈ files.filterMap
            (fun f => extract_class_name f.2), x ∉ c :: processed := by
          intro x hx hmem
          rcases List.mem_cons.mp hmem with rfl | hmem2
          · exact hcnotail hx
          · exact h4 x (by rw [hfm]; exact List.mem_cons_of_mem _ hx) hmem2
        have hanyc : anyMap st c = false := by
          rcases hq : anyMap st c with _ | _
          · rfl
          · exact absurd (h2 c hq) hcproc
        have hanyparts : dictContains st.services c = false ∧
            dictContains st.repositories c = false ∧
            dictContains st.entities c = false := by
          rw [anyMap] at hanyc
          refine ⟨?_, ?_, ?_⟩
          · rcases hs : dictContains st.services c with _ | _
            · rfl
            · rw [hs] at hanyc
              simp at hanyc
          · rcases hr : dictContains st.repositories c with _ | _
            · rfl
            · rw [hr] at hanyc
              simp at hanyc
          · rcases he : dictContains st.entities c with _ | _
            · rfl
            · rw [he] at hanyc
              simp at hanyc
        have hIH : ∀ st2 : EPState, (∀ m, countMaps st2 m ≤ 1) →
            (∀ m, anyMap st2 m = true → m ∈ c :: processed) →
            countMaps (first_pass files st2) n ≤ 1 := by
          intro st2 g1 g2
          exact ih st2 (c :: processed) g1 g2 hnodup htail n
        rw [identify_class_type, hcn]
        rcases hkind : identify_kind f.2 with _ | k
        · exact hIH st h1 (fun m hm => List.mem_cons_of_mem _ (h2 m hm))
        · rcases k with _ | _ | _ | _
          · exact hIH st h1 (fun m hm => List.mem_cons_of_mem _ (h2 m hm))
          · apply hIH
            · intro m
              rw [countMaps]
              simp only [dictContains_dictSet]
              by_cases hmc : c = m
              · cases hmc
                rw [beq_self_eq_true]
                rw [hanyparts.1, hanyparts.2.1, hanyparts.2.2]
                simp
              · rw [beq_false_of_ne hmc]
                have := h1 m
                rw [countMaps] at this
                simpa using this
            · intro m hm
              rw [anyMap_dictSet_services] at hm
              rcases hq : (c == m) with _ | _
              · rw [hq] at hm
                simp only [Bool.false_or] at hm
                exact List.mem_cons_of_mem _ (h2 m hm)
              · have : c = m := eq_of_beq hq
                cases this
                exact List.mem_cons_self _ _
          · apply hIH
            · intro m
              rw [countMaps]
              simp only [dictContains_dictSet]
              by_cases hmc : c = m
              · cases hmc
                rw [beq_self_eq_true]
                rw [hanyparts.1, hanyparts.2.1, hanyparts.2.2]
                simp
              · rw [beq_false_of_ne hmc]
                have := h1 m
                rw [countMaps] at this
                simpa using this
            · intro m hm
              rw [anyMap_dictSet_repositories] at hm
              rcases hq : (c == m) with _ | _
              · rw [hq] at hm
                simp only [Bool.false_or] at hm
                exact List.mem_cons_of_mem _ (h2 m hm)
              · have : c = m := eq_of_beq hq
                cases this
                exact List.mem_cons_self _ _
          · apply hIH
            · intro m
              rw [countMaps]
              simp only [dictContains_dictSet]
              by_cases hmc : c = m
              · cases hmc
                rw [beq_self_eq_true]
                rw [hanyparts.1, hanyparts.2.1, hanyparts.2.2]
                simp
              · rw [beq_false_of_ne hmc]
                have := h1 m
                rw [countMaps] at this
                simpa using this
            · intro m hm
              rw [anyMap_dictSet_entities] at hm
              rcases hq : (c == m) with _ | _
              · rw [hq] at hm
                simp only [Bool.false_or] at hm
                exact List.mem_cons_of_mem _ (h2 m hm)
              · have : c = m := eq_of_beq hq
                cases this
                exact List.mem_cons_self _ _

end EndpointParser

namespace EndpointParser

open JavaText

/-- C3: classification happens once per class by the first matching rule
in the fixed order controller, service, repository, entity; a class with
both service and repository markers is a service; repository detection
also fires on inheritance from a known repository base type; a class
matching no rule lands in no map; and under distinct class names every
class appears in at most one of the three maps. -/
theorem c3_classification_first_match :
    (∀ content : Str, hasControllerAnno content = true →
        identify_kind content = some ClassKind.controller) ∧
    (∀ content : Str, hasControllerAnno content = false →
        hasServiceAnno content = true → hasRepositoryAnno content = true →
        identify_kind content = some ClassKind.service) ∧
    (∀ content : Str, hasControllerAnno content = false →
        hasServiceAnno content = false →
        searchExtendsRepoBase content = true →
        identify_kind content = some ClassKind.repository) ∧
    (∀ (st : EPState) (fp content : Str), identify_kind content = none →
        identify_class_type st fp content = st) ∧
    (∀ files : List (Str × Str),
        (files.filterMap (fun f => extract_class_name f.2)).Nodup →
        ∀ n, countMaps (first_pass files emptyEPState) n ≤ 1) := by
  refine ⟨?_, ?_, ?_, ?_, ?_⟩
  · intro content h
    rw [identify_kind, if_pos h]
  · intro content h0 h1 _
    rw [identify_kind, if_neg (by rw [h0]; exact Bool.false_ne_true),
      if_pos h1]
  · intro content h0 h1 h2
    have hrep : hasRepositoryAnno content = true := by
      rw [hasRepositoryAnno, h2, Bool.or_true]
    rw [identify_kind, if_neg (by rw [h0]; exact Bool.false_ne_true),
      if_neg (by rw [h1]; exact Bool.false_ne_true), if_pos hrep]
  · intro st fp content h
    rcases hcn : extract_class_name content with _ | c
    · simp only [identify_class_type, hcn]
    · simp only [identify_class_type, hcn, h]
  · intro files hnodup n
    apply c3_first_pass_aux files emptyEPState [] ?_ ?_ hnodup ?_
    · intro m
      simp [countMaps, emptyEPState, dictContains]
    · intro m hm
      simp [anyMap, emptyEPState, dictContains] at hm
    · intro c _ hmem
      cases hmem

/-- A class marked both `@Service` and `@Repository`. -/
def c3ContentDual : Str :=
  ("@Service\n@Repository\npublic class DualMarked \x7b \x7d").toList

/-- An un-annotated interface inheriting a repository base type. -/
def c3ContentRepo : Str :=
  ("public interface OrderRepo extends JpaRepository<Order, Long> \x7b \x7d").toList

/-- A class carrying none of the markers. -/
def c3ContentPlain : Str :=
  ("public class Plain \x7b \x7d").toList

/-- C3 witness: the classification theorem applied at concrete file
contents. -/
theorem c3_classification_first_match_witness :
    identify_kind c3ContentDual = some ClassKind.service ∧
    identify_kind c3ContentRepo = some ClassKind.repository ∧
    identify_class_type emptyEPState ("X.java".toList) c3ContentPlain =
      emptyEPState ∧
    countMaps (first_pass [(("A.java".toList), c3ContentDual),
      (("B.java".toList), c3ContentRepo)] emptyEPState)
      ("DualMarked".toList) ≤ 1 := by
  refine ⟨?_, ?_, ?_, ?_⟩
  · exact c3_classification_first_match.2.1 c3ContentDual (by decide)
      (by decide) (by decide)
  · exact c3_classification_first_match.2.2.1 c3ContentRepo (by decide)
      (by decide) (by decide)
  · exact c3_classification_first_match.2.2.2.1 emptyEPState
      ("X.java".toList) c3ContentPlain (by decide)
  · exact c3_classification_first_match.2.2.2.2
      [(("A.java".toList), c3ContentDual), (("B.java".toList), c3ContentRepo)]
      (by decide) ("DualMarked".toList)

end EndpointParser

namespace Rx

/-!
A small continuation-passing matcher library into which the source's
regex patterns are compiled one by one.  Greedy and lazy quantifiers
over character classes backtrack through the continuation, which is
exactly the semantics the Python `re` module gives the patterns used by
the source (all quantified subexpressions there are character classes
or literal-prefixed groups).
-/

/-- A continuation: the rest of the pattern applied to the rest of the
input. -/
abbrev Cont (β : Type) := List Char → Option β

/-- Literal text. -/
def litM {β : Type} (l : List Char) (k : Cont β) : Cont β := fun s =>
  if l.isPrefixOf s then k (s.drop l.length) else none

/-- Greedy `cls*`: consume as much as possible, giving back on
failure of the continuation. -/
def starCls {β : Type} (p : Char → Bool) (k : Cont β) : Cont β
  | [] => k []
  | c :: rest =>
      if p c then
        match starCls p k rest with
        | some r => some r
        | none => k (c :: rest)
      else k (c :: rest)

/-- Greedy `cls+`. -/
def plusCls {β : Type} (p : Char → Bool) (k : Cont β) : Cont β := fun s =>
  match s with
  | [] => none
  | c :: rest => if p c then starCls p k rest else none

/-- Lazy `cls*?`: try the continuation first, consume on failure. -/
def starClsLazy {β : Type} (p : Char → Bool) (k : Cont β) : Cont β
  | [] => k []
  | c :: rest =>
      match k (c :: rest) with
      | some r => some r
      | none => if p c then starClsLazy p k rest else none

/-- Greedy capturing `(cls*)`: the continuation receives the captured
characters. -/
def capStarCls {β : Type} (p : Char → Bool) (k : List Char → Cont β) :
    Cont β
  | [] => k [] []
  | c :: rest =>
      if p c then
        match capStarCls p (fun w => k (c :: w)) rest with
        | some r => some r
        | none => k [] (c :: rest)
      else k [] (c :: rest)

/-- Greedy capturing `(cls+)`. -/
def capPlusCls {β : Type} (p : Char → Bool) (k : List Char → Cont β) :
    Cont β := fun s =>
  match s with
  | [] => none
  | c :: rest =>
      if p c then capStarCls p (fun w => k (c :: w)) rest else none

/-- Greedy `(?:frag)?`: try the fragment, fall through on failure. -/
def optM {β : Type} (frag : Cont β → Cont β) (k : Cont β) : Cont β :=
  fun s =>
    match frag k s with
    | some r => some r
    | none => k s

/-- Ordered alternation `(?:frag1|frag2)`. -/
def altM {β : Type} (frag1 frag2 : Cont β → Cont β) (k : Cont β) :
    Cont β := fun s =>
  match frag1 k s with
  | some r => some r
  | none => frag2 k s

/-- `re.search`: try the anchored matcher at every position, leftmost
match wins. -/
def searchM {β : Type} (m : List Char → Option β) : List Char → Option β
  | [] => m []
  | c :: rest =>
      match m (c :: rest) with
      | some r => some r
      | none => searchM m rest

/-- `re.finditer` (fuel-indexed helper): scan left to right, resuming
after each match; a match that consumes nothing advances one position,
as the Python scanner does. -/
def scanAuxM {β : Type} (m : List Char → Option (β × List Char)) :
    Nat → List Char → List β
  | 0, _ => []
  | _ + 1, [] =>
      match m [] with
      | some (b, _) => [b]
      | none => []
  | fuel + 1, c :: rest =>
      match m (c :: rest) with
      | some (b, r) =>
          if r.length < (c :: rest).length then b :: scanAuxM m fuel r
          else b :: scanAuxM m fuel rest
      | none => scanAuxM m fuel rest

/-- `re.finditer`: all non-overlapping matches, left to right. -/
def scanM {β : Type} (m : List Char → Option (β × List Char))
    (s : List Char) : List β :=
  scanAuxM m (s.length + 1) s

/-- Members of a scan all come from a successful anchored match. -/
theorem mem_scanAuxM {β : Type} {m : List Char → Option (β × List Char)}
    {b : β} : ∀ {fuel : Nat} {s : List Char},
    b ∈ scanAuxM m fuel s → ∃ s0 r, m s0 = some (b, r) := by
  intro fuel
  induction fuel with
  | zero =>
      intro s h
      cases h
  | succ f ih =>
      intro s h
      match s with
      | [] =>
          rw [scanAuxM] at h
          rcases hm : m [] with _ | ⟨b0, r0⟩
          · simp only [hm] at h
            cases h
          · simp only [hm] at h
            rcases List.mem_singleton.mp h with rfl
            exact ⟨[], r0, hm⟩
      | c :: rest =>
          rw [scanAuxM] at h
          rcases hm : m (c :: rest) with _ | ⟨b0, r0⟩
          · simp only [hm] at h
            exact ih h
          · simp only [hm] at h
            by_cases hlen : r0.length < (c :: rest).length
            · rw [if_pos hlen] at h
              rcases List.mem_cons.mp h with rfl | h2
              · exact ⟨c :: rest, r0, hm⟩
              · exact ih h2
            · rw [if_neg hlen] at h
              rcases List.mem_cons.mp h with rfl | h2
              · exact ⟨c :: rest, r0, hm⟩
              · exact ih h2

theorem mem_scanM {β : Type} {m : List Char → Option (β × List Char)}
    {b : β} {s : List Char} (h : b ∈ scanM m s) :
    ∃ s0 r, m s0 = some (b, r) :=
  mem_scanAuxM h

end Rx

namespace EndpointParser

open JavaText Rx

/-- The optional `(?:value\s*=\s*)?` fragment of the mapping patterns. -/
def valueFrag {β : Type} (k : Cont β) : Cont β :=
  optM (fun k2 => litM ("value".toList)
    (starCls isPyWs (litM ("=".toList) (starCls isPyWs k2)))) k

/-- Return-type fragment of the primary patterns:
`(?:ResponseEntity|[\w<>]+)`. -/
def retPrimaryFrag {β : Type} (k : Cont β) : Cont β :=
  altM (fun k2 => litM ("ResponseEntity".toList) k2)
    (fun k2 => plusCls (fun c => isWordChar c || c = '<' || c = '>') k2) k

/-- Return-type fragment of the fallback patterns:
`\w+(?:<[^>]*>)?`. -/
def retFallbackFrag {β : Type} (k : Cont β) : Cont β :=
  plusCls isWordChar
    (optM (fun k2 => litM ("<".toList)
      (starCls (fun c => c ≠ '>') (litM (">".toList) k2))) k)

/-- Fragment between the closing quote of the path and the closing
parenthesis of the annotation: plain `[^)]*\)`, or
`[^)]*method\s*=\s*RequestMethod\.VERB[^)]*\)` for the
`@RequestMapping` patterns. -/
def midFrag {β : Type} (verb : Option Str) (k : Cont β) : Cont β :=
  match verb with
  | none => starCls (fun c => c ≠ ')') (litM (")".toList) k)
  | some v =>
      starCls (fun c => c ≠ ')') (litM ("method".toList)
        (starCls isPyWs (litM ("=".toList)
          (starCls isPyWs (litM ("RequestMethod.".toList)
            (litM v (starCls (fun c => c ≠ ')') (litM (")".toList) k))))))))

/-- One endpoint-mapping pattern of `_parse_file` (lines 250-267),
compiled: `@A\s*\(\s*(?:value\s*=\s*)?"(path)"MID[^{]*?public\s+RET\s+
(name)\s*\(`.  Produces the two captures and the input remaining after
the parameter parenthesis (`match.end()`, where the brace scan starts). -/
def mappingMatcher (annot : Str) (verb : Option Str) (fallbackRet : Bool) :
    List Char → Option (((Str × Str) × List Char) × List Char) :=
  litM ('@' :: annot)
    (starCls isPyWs (litM ("(".toList) (starCls isPyWs (valueFrag
      (litM ("\"".toList) (capStarCls (fun c => c ≠ '"') (fun path =>
        litM ("\"".toList) (midFrag verb
          (starClsLazy (fun c => c ≠ '{') (litM ("public".toList)
            (plusCls isPyWs ((if fallbackRet then retFallbackFrag else
                retPrimaryFrag)
              (plusCls isPyWs (capPlusCls isWordChar (fun name =>
                (starCls isPyWs (litM ("(".toList) (fun rest =>
                  some (((path, name), rest), rest)))))))))))))))))))

/-- The eight primary mapping patterns, in source order. -/
def mappingPatternsPrimary :
    List ((List Char → Option (((Str × Str) × List Char) × List Char)) × Str) :=
  [(mappingMatcher ("GetMapping".toList) none false, ("GET".toList)),
   (mappingMatcher ("PostMapping".toList) none false, ("POST".toList)),
   (mappingMatcher ("PutMapping".toList) none false, ("PUT".toList)),
   (mappingMatcher ("DeleteMapping".toList) none false, ("DELETE".toList)),
   (mappingMatcher ("RequestMapping".toList) (some ("GET".toList)) false,
     ("GET".toList)),
   (mappingMatcher ("RequestMapping".toList) (some ("POST".toList)) false,
     ("POST".toList)),
   (mappingMatcher ("RequestMapping".toList) (some ("PUT".toList)) false,
     ("PUT".toList)),
   (mappingMatcher ("RequestMapping".toList) (some ("DELETE".toList)) false,
     ("DELETE".toList))]

/-- The four fallback mapping patterns, in source order. -/
def mappingPatternsFallback :
    List ((List Char → Option (((Str × Str) × List Char) × List Char)) × Str) :=
  [(mappingMatcher ("GetMapping".toList) none true, ("GET".toList)),
   (mappingMatcher ("PostMapping".toList) none true, ("POST".toList)),
   (mappingMatcher ("PutMapping".toList) none true, ("PUT".toList)),
   (mappingMatcher ("DeleteMapping".toList) none true, ("DELETE".toList))]

/-- The `@RequestMapping\s*\(\s*(?:value\s*=\s*)?"([^"]*)"` base-path
pattern of line 241. -/
def basePathMatcher : List Char → Option Str :=
  litM ("@RequestMapping".toList)
    (starCls isPyWs (litM ("(".toList) (starCls isPyWs (valueFrag
      (litM ("\"".toList) (capStarCls (fun c => c ≠ '"') (fun p =>
        litM ("\"".toList) (fun _ => some p))))))))

/-- The brace-counting loop of `_extract_method_block` (lines 512-524),
acting on the input suffix that starts at `method_start`; the count can
go below zero, and only a closing brace that returns it to zero ends
the scan.  When no such brace exists the loop runs off the end and the
empty slice is returned. -/
def brace_scan : List Char → Int → List Char → Str
  | [], _, _ => []
  | c :: rest, count, acc =>
      if c = '{' then brace_scan rest (count + 1) (c :: acc)
      else if c = '}' then
        (if count - 1 = 0 then (c :: acc).reverse
         else brace_scan rest (count - 1) (c :: acc))
      else brace_scan rest count (c :: acc)

/-- `EndpointParser._extract_method_block`. -/
def extract_method_block (content : Str) (method_start : Nat) : Str :=
  brace_scan (content.drop method_start) 0 []

/-- One step of the `(\w+)Service\.(\w+)\(` scan of
`_extract_service_calls`: anchored at the current position, the first
group is a word run ending in the suffix with a non-empty stem,
followed directly by a dot, the method word run and an opening
parenthesis. -/
def suffixCallStep (suffix : Str) (s : List Char) :
    Option ((Str × Str) × List Char) :=
  match s.span isWordChar with
  | (w1, r1) =>
      if w1.isEmpty then none
      else if ¬ (suffix.isSuffixOf w1 && decide (suffix.length < w1.length)) then
        none
      else
        match r1 with
        | '.' :: r2 =>
            (match r2.span isWordChar with
             | (w2, r3) =>
                 if w2.isEmpty then none
                 else
                   match r3 with
                   | '(' :: r4 => some ((w1, w2), r4)
                   | _ => none)
        | _ => none

/-- `EndpointParser._extract_service_calls`: every
`prefixService.method(` occurrence as a `(service, method)` pair. -/
def extract_service_calls (method_block : Str) : List (Str × Str) :=
  scanM (suffixCallStep ("Service".toList)) method_block

/-- `EndpointParser._extract_repository_calls`. -/
def extract_repository_calls (method_block : Str) : List (Str × Str) :=
  scanM (suffixCallStep ("Repository".toList)) method_block

/-- One endpoint record of `_parse_file`; `services` and
`repositories` model the keys appended later by
`_enrich_endpoints_with_dependencies`. -/
structure Endpoint where
  controller : Option Str
  method : Str
  http_method : Str
  path : Str
  implementation : Str
  service_calls : List (Str × Str)
  services : Option (List Str)
  repositories : Option (List Str)
deriving DecidableEq

/-- Endpoint construction shared by the two loops of `_parse_file`
(lines 269-306 and 308-342); only the primary loop carries the
constructor-name skip. -/
def build_endpoints (controller_name : Option Str) (base_path : Str)
    (checkCtor : Bool) (found : List ((Str × Str) × List Char))
    (http : Str) : List Endpoint :=
  found.filterMap (fun m =>
    if checkCtor && (some m.1.2 == controller_name) then none
    else some
      { controller := controller_name
        method := m.1.2
        http_method := http
        path := construct_full_path base_path m.1.1
        implementation := brace_scan m.2 0 []
        service_calls := extract_service_calls (brace_scan m.2 0 [])
        services := none
        repositories := none })

/-- `EndpointParser._parse_file`: controller detection, base path,
primary patterns with the constructor skip, and the fallback patterns
(without it) when the primary loop found nothing. -/
def parse_file (content : Str) : List Endpoint :=
  if hasControllerAnno content = false then []
  else
    let controller_name := extract_class_name content
    let base_path :=
      match searchM basePathMatcher content with
      | some p => pyStripChar '/' p
      | none => []
    let primary := mappingPatternsPrimary.flatMap (fun pm =>
      build_endpoints controller_name base_path true (scanM pm.1 content)
        pm.2)
    if primary.isEmpty then
      mappingPatternsFallback.flatMap (fun pm =>
        build_endpoints controller_name base_path false (scanM pm.1 content)
          pm.2)
    else primary

end EndpointParser

namespace EndpointParser

open JavaText Rx

/-- C7 (amended): the primary mapping loop skips any method whose name
equals the controller class name, so no primary-pattern endpoint is
constructor-named; the fallback loop (lines 308-342) carries no such
check. -/
theorem c7_primary_skips_constructor (cn : Option Str) (base : Str)
    (found : List ((Str × Str) × List Char)) (http : Str) (e : Endpoint)
    (n : Str) (hmem : e ∈ build_endpoints cn base true found http)
    (hcn : cn = some n) : e.method ≠ n := by
  rcases List.mem_filterMap.mp hmem with ⟨m, _, hf⟩
  by_cases hg : (true && (some m.1.2 == cn)) = true
  · rw [if_pos hg] at hf
    cases hf
  · rw [if_neg hg] at hf
    have he : e.method = m.1.2 := by
      cases hf
      rfl
    intro hEq
    apply hg
    rw [Bool.true_and, hcn]
    have : m.1.2 = n := by
      rw [← he, hEq]
    rw [this]
    exact beq_self_eq_true _

/-- A controller whose only mapped method escapes the eight primary
patterns (its return type `Map<String, Foo>` contains a comma and a
space, which `[\w<>]+` cannot match) while matching the fallback
pattern, and whose captured method name equals the class name. -/
def c7Content : Str :=
  ("@RestController\npublic class AccountController \x7b\n@GetMapping(\"/x\")\npublic Map<String, Foo> AccountController(int a) \x7b return b; \x7d\n\x7d").toList

set_option maxRecDepth 40000 in
/-- C7 counterexample: the fallback loop lacks the constructor check,
so the scan output contains an endpoint whose method equals the
controller class name. -/
theorem c7_constructor_counterexample :
    extract_class_name c7Content = some ("AccountController".toList) ∧
    (parse_file c7Content).map (fun e => e.method) =
      [("AccountController".toList)] := by
  constructor
  · rfl
  · rfl

/-- The endpoint produced by the primary builder at a one-element match
list, used to witness the amended theorem. -/
def c7WitnessEndpoint : Endpoint :=
  { controller := some ("AccountController".toList)
    method := ("getAccount".toList)
    http_method := ("GET".toList)
    path := ("/x".toList)
    implementation := []
    service_calls := []
    services := none
    repositories := none }

/-- C7 witness: the amended theorem applied at a concrete match. -/
theorem c7_primary_skips_constructor_witness :
    c7WitnessEndpoint.method ≠ ("AccountController".toList) :=
  c7_primary_skips_constructor (some ("AccountController".toList)) []
    [((("x".toList), ("getAccount".toList)), ([] : List Char))]
    ("GET".toList) c7WitnessEndpoint ("AccountController".toList)
    (by decide) rfl

end EndpointParser

namespace EndpointParser

open JavaText Rx

/-- Character class `[\w<>[\],\s]` of the entity field pattern. -/
def isFieldTypeChar (c : Char) : Bool :=
  isWordChar c || c = '<' || c = '>' || c = '[' || c = ']' || c = ',' ||
  isPyWs c

/-- The `(?:private|protected|public)\s+` fragment (alternatives in
source order). -/
def visFrag {β : Type} (k : Cont β) : Cont β :=
  altM (fun k2 => litM ("private".toList) k2)
    (fun k2 => altM (fun k3 => litM ("protected".toList) k3)
      (fun k3 => litM ("public".toList) k3) k2)
    (plusCls isPyWs k)

/-- The entity field pattern of line 446:
`(?:@Column\s*\([^)]*\)\s*)?(?:private|protected|public)\s+
([\w<>[\],\s]+)\s+(\w+);` producing `(raw type, name)`. -/
def entityFieldMatcher : List Char → Option ((Str × Str) × List Char) :=
  optM (fun k2 => litM ("@Column".toList)
      (starCls isPyWs (litM ("(".toList) (starCls (fun c => c ≠ ')')
        (litM (")".toList) (starCls isPyWs k2))))))
    (visFrag (capPlusCls isFieldTypeChar (fun rawType =>
      plusCls isPyWs (capPlusCls isWordChar (fun name =>
        litM (";".toList) (fun rest => some ((rawType, name), rest)))))))

/-- Lines 445-454: all plain field entries of an entity file
(`field_type` is stripped as in the source). -/
def entity_fields (content : Str) : List EntityField :=
  (scanM entityFieldMatcher content).map
    (fun g => ⟨g.2, pyStripWs g.1⟩)

/-- The shared `@Anno\s*\([^)]*\)\s*(?:private|protected|public)\s+`
prefix of the four relationship patterns (the parenthesized argument
list is mandatory). -/
def relPrefixFrag {β : Type} (anno : Str) (k : Cont β) : Cont β :=
  litM ('@' :: anno) (starCls isPyWs (litM ("(".toList)
    (starCls (fun c => c ≠ ')') (litM (")".toList)
      (starCls isPyWs (visFrag k))))))

/-- `@OneToMany...(\w+)<(\w+)>`: the target entity is the second
group. -/
def oneToManyMatcher : List Char → Option (Str × List Char) :=
  relPrefixFrag ("OneToMany".toList) (capPlusCls isWordChar (fun _ =>
    litM ("<".toList) (capPlusCls isWordChar (fun g2 =>
      litM (">".toList) (fun rest => some (g2, rest))))))

/-- `@ManyToOne...(\w+)`: the target entity is the first group. -/
def manyToOneMatcher : List Char → Option (Str × List Char) :=
  relPrefixFrag ("ManyToOne".toList) (capPlusCls isWordChar (fun g1 =>
    fun rest => some (g1, rest)))

/-- `@OneToOne...(\w+)`. -/
def oneToOneMatcher : List Char → Option (Str × List Char) :=
  relPrefixFrag ("OneToOne".toList) (capPlusCls isWordChar (fun g1 =>
    fun rest => some (g1, rest)))

/-- `@ManyToMany...\w+<(\w+)>`: note this pattern has a single group,
while line 470 reads `match.group(2)` for it. -/
def manyToManyMatcher : List Char → Option (Str × List Char) :=
  relPrefixFrag ("ManyToMany".toList) (plusCls isWordChar
    (litM ("<".toList) (capPlusCls isWordChar (fun g =>
      litM (">".toList) (fun rest => some (g, rest))))))

/-- Lines 456-477: the relationship entries appended per pattern, in
pattern order.  A match of the `@ManyToMany` pattern makes the source
read `match.group(2)` of a one-group pattern, raising `IndexError`;
the embedding models that uncaught exception as `none`. -/
def entity_relationships (content : Str) : Option (List EntityRel) :=
  if (scanM manyToManyMatcher content).isEmpty then
    some (((scanM oneToManyMatcher content).map
        (fun g => EntityRel.mk ("OneToMany".toList) g)) ++
      ((scanM manyToOneMatcher content).map
        (fun g => EntityRel.mk ("ManyToOne".toList) g)) ++
      ((scanM oneToOneMatcher content).map
        (fun g => EntityRel.mk ("OneToOne".toList) g)))
  else none

/-- The claim's entity, annotation without an argument list. -/
def c4OrderClaim : Str :=
  ("@Entity\npublic class Order \x7b\n    @OneToMany\n    private List<LineItem> items;\n\x7d").toList

/-- The same entity with a parenthesized `@OneToMany` argument list. -/
def c4OrderParens : Str :=
  ("@Entity\npublic class Order \x7b\n    @OneToMany(mappedBy = \"order\")\n    private List<LineItem> items;\n\x7d").toList

/-- The same entity with no relationship annotation. -/
def c4OrderNoAnno : Str :=
  ("@Entity\npublic class Order \x7b\n    private List<LineItem> items;\n\x7d").toList

set_option maxRecDepth 40000 in
/-- C4 counterexample: on the claim's own input, `@OneToMany` without a
parenthesized argument list, no relationship entry is produced at all,
and the annotated field still appears as a plain field entry. -/
theorem c4_one_to_many_counterexample :
    entity_relationships c4OrderClaim = some [] ∧
    entity_fields c4OrderClaim =
      [⟨("items".toList), ("List<LineItem>".toList)⟩] := by
  constructor
  · rfl
  · rfl

set_option maxRecDepth 40000 in
/-- C4 (amended): with a parenthesized argument list the `@OneToMany`
field yields exactly one relationship entry `{OneToMany, LineItem}` —
the field name is not recorded — while the field also remains a plain
field entry; removing the annotation removes the relationship entry
and keeps the plain field. -/
theorem c4_one_to_many_relationship :
    entity_relationships c4OrderParens =
      some [⟨("OneToMany".toList), ("LineItem".toList)⟩] ∧
    entity_fields c4OrderParens =
      [⟨("items".toList), ("List<LineItem>".toList)⟩] ∧
    entity_relationships c4OrderNoAnno = some [] ∧
    entity_fields c4OrderNoAnno =
      [⟨("items".toList), ("List<LineItem>".toList)⟩] := by
  refine ⟨?_, ?_, ?_, ?_⟩
  · rfl
  · rfl
  · rfl
  · rfl

end EndpointParser

namespace FlowAnalyzer

open JavaText Rx

/-- Character class `[\w<>[\],\s\.]` of the injection patterns. -/
def isInjTypeChar (c : Char) : Bool :=
  isWordChar c || c = '<' || c = '>' || c = '[' || c = ']' || c = ',' ||
  isPyWs c || c = '.'

/-- `(?:@Autowired|@Inject)(?:\s+private|\s+protected)?\s+
([\w<>[\],\s\.]+)\s+(\w+)` (line 609). -/
def autowiredMatcher : List Char → Option ((Str × Str) × List Char) :=
  altM (fun k => litM ("@Autowired".toList) k)
    (fun k => litM ("@Inject".toList) k)
    (optM (fun k => altM
        (fun k2 => plusCls isPyWs (litM ("private".toList) k2))
        (fun k2 => plusCls isPyWs (litM ("protected".toList) k2)) k)
      (plusCls isPyWs (capPlusCls isInjTypeChar (fun t =>
        plusCls isPyWs (capPlusCls isWordChar (fun n =>
          fun rest => some ((t, n), rest)))))))

/-- `(?:public|private|protected)?\s+\w+\s*\(\s*(?:final\s+)?
([\w<>[\],\s\.]+)\s+(\w+)` (line 610). -/
def ctorInjMatcher : List Char → Option ((Str × Str) × List Char) :=
  optM (fun k => altM (fun k2 => litM ("public".toList) k2)
      (fun k2 => altM (fun k3 => litM ("private".toList) k3)
        (fun k3 => litM ("protected".toList) k3) k2) k)
    (plusCls isPyWs (plusCls isWordChar (starCls isPyWs
      (litM ("(".toList) (starCls isPyWs
        (optM (fun k => litM ("final".toList) (plusCls isPyWs k))
          (capPlusCls isInjTypeChar (fun t =>
            plusCls isPyWs (capPlusCls isWordChar (fun n =>
              fun rest => some ((t, n), rest)))))))))))

/-- `(?:private|protected|public)?\s+([\w<>[\],\s\.]+)\s+(\w+)
(?:\s*=|\s*;)` (line 628). -/
def fieldDeclMatcher : List Char → Option ((Str × Str) × List Char) :=
  optM (fun k => altM (fun k2 => litM ("private".toList) k2)
      (fun k2 => altM (fun k3 => litM ("protected".toList) k3)
        (fun k3 => litM ("public".toList) k3) k2) k)
    (plusCls isPyWs (capPlusCls isInjTypeChar (fun t =>
      plusCls isPyWs (capPlusCls isWordChar (fun n =>
        altM (fun k2 => starCls isPyWs (litM ("=".toList) k2))
          (fun k2 => starCls isPyWs (litM (";".toList) k2))
          (fun rest => some ((t, n), rest)))))))

/-- Does the declared type look like a component (`'Service' in t` and
friends, case-sensitive as in the source)? -/
def looksComponentType (t : Str) : Bool :=
  containsSeq ("Service".toList) t || containsSeq ("Repository".toList) t ||
  containsSeq ("Dao".toList) t

/-- Lines 607-635: the `autowired_fields` dictionary built from the
three injection scans over the method body, later writes overriding
earlier ones. -/
def autowired_fields (body : Str) : Dict Str :=
  let d1 := (scanM autowiredMatcher body).foldl
    (fun d g => dictSet d (pyStripWs g.2) (pyStripWs g.1)) []
  let d2 := (scanM ctorInjMatcher body).foldl
    (fun d g => if looksComponentType (pyStripWs g.1) then
        dictSet d (pyStripWs g.2) (pyStripWs g.1) else d) d1
  (scanM fieldDeclMatcher body).foldl
    (fun d g => if looksComponentType (pyStripWs g.1) then
        dictSet d (pyStripWs g.2) (pyStripWs g.1) else d) d2

/-- One step of the `(?:return\s+)?(\w+)\.(\w+)\s*\(` scan (line 639),
anchored at the current position. -/
def objCallCore (t : List Char) : Option ((Str × Str) × List Char) :=
  match t.span isWordChar with
  | (w1, r1) =>
      if w1.isEmpty then none
      else
        match r1 with
        | '.' :: r2 =>
            (match r2.span isWordChar with
             | (w2, r3) =>
                 if w2.isEmpty then none
                 else
                   match r3.dropWhile isPyWs with
                   | '(' :: r4 => some ((w1, w2), r4)
                   | _ => none)
        | _ => none

def objCallStep (s : List Char) : Option ((Str × Str) × List Char) :=
  if ("return".toList).isPrefixOf s then
    match s.drop 6 with
    | c :: rest =>
        if isPyWs c then
          match objCallCore ((c :: rest).dropWhile isPyWs) with
          | some r => some r
          | none => objCallCore s
        else objCallCore s
    | [] => objCallCore s
  else objCallCore s

/-- The unconditional exclusion list of line 646. -/
def excludedMethods : List Str :=
  [("toString".toList), ("equals".toList), ("hashCode".toList),
   ("println".toList), ("print".toList), ("debug".toList),
   ("info".toList), ("error".toList), ("warn".toList)]

/-- Lines 649-663: resolve the callee class of `obj.method(...)` from
the injected fields, or by capitalising a service/repository-looking
identifier. -/
def resolveObjClass (autow : Dict Str) (obj : Str) : Option Str :=
  match dictGet autow obj with
  | some t => some t
  | none =>
      if ("Service".toList).isSuffixOf obj ||
          containsSeq ("service".toList) obj then
        some (upperFirstIfLower obj)
      else if containsSeq ("repository".toList) (lowerL obj) ||
          containsSeq ("repo".toList) (lowerL obj) ||
          containsSeq ("dao".toList) (lowerL obj) then
        some (upperFirstIfLower obj)
      else none

/-- Does `w` end, case-insensitively, with one of the suffixes, with at
least one character of stem before it (`\w+(?:S1|S2|...)`)? -/
def endsWithOneOfCI (sufs : List Str) (w : Str) : Bool :=
  sufs.any (fun suf =>
    decide (suf.length < w.length) && (lowerL suf).isSuffixOf (lowerL w))

def txSvcSuffixes : List Str :=
  [("Service".toList), ("Repository".toList), ("Dao".toList)]

def txMethodSuffixes : List Str :=
  [("Transfer".toList), ("Transaction".toList), ("Payment".toList),
   ("Deposit".toList), ("Withdraw".toList), ("Account".toList),
   ("Balance".toList)]

/-- One step of the transaction-call scan (line 676):
`(\w+(?:Service|Repository|Dao))\.(\w+(?:Transfer|Transaction|Payment|
Deposit|Withdraw|Account|Balance))\s*\(` with `re.IGNORECASE`: each
group is a word run ending case-insensitively in one of the suffixes
with a non-empty stem. -/
def txCallStep (s : List Char) : Option ((Str × Str) × List Char) :=
  if (s.span isWordChar).1.isEmpty then none
  else if ¬ (endsWithOneOfCI txSvcSuffixes (s.span isWordChar).1 = true) then
    none
  else
    match (s.span isWordChar).2 with
    | '.' :: r2 =>
        if (r2.span isWordChar).1.isEmpty then none
        else if ¬ (endsWithOneOfCI txMethodSuffixes
            (r2.span isWordChar).1 = true) then none
        else
          match ((r2.span isWordChar).2).dropWhile isPyWs with
          | '(' :: r4 => some (((s.span isWordChar).1,
              (r2.span isWordChar).1), r4)
          | _ => none
    | _ => none

/-- The keyword gate of line 674. -/
def txGate (body : Str) : Bool :=
  [("transaction".toList), ("transfer".toList), ("payment".toList),
   ("balance".toList), ("account".toList)].any
    (fun kw => containsSeq kw (lowerL body))

/-- The duplicate-collapsing loop of lines 692-698, keyed by
`f"{class}.{method}"`. -/
def dedupAux (seen : List Str) : List (Str × Str) → List (Str × Str)
  | [] => []
  | c :: rest =>
      if seen.contains (mkKey c.1 c.2) then dedupAux seen rest
      else c :: dedupAux (mkKey c.1 c.2 :: seen) rest

def dedupCalls (l : List (Str × Str)) : List (Str × Str) :=
  dedupAux [] l

/-- `FlowAnalyzer._extract_method_calls` (lines 602-700): injected-field
collection, the main `obj.method(` scan with the exclusion list and the
resolution chain, the gated transaction scan, and final
deduplication. -/
def extract_method_calls (body : Str) : List (Str × Str) :=
  let autow := autowired_fields body
  let calls1 := (scanM objCallStep body).filterMap (fun g =>
    if excludedMethods.contains g.2 then none
    else
      match resolveObjClass autow g.1 with
      | some cls => some (cls, g.2)
      | none => none)
  let calls2 :=
    if txGate body then
      (scanM txCallStep body).map (fun g => (upperFirstIfLower g.1, g.2))
    else []
  dedupCalls (calls1 ++ calls2)

end FlowAnalyzer

namespace FlowAnalyzer

open JavaText Rx

theorem mem_dedupAux {x : Str × Str} :
    ∀ {l : List (Str × Str)} {seen : List Str},
    x ∈ dedupAux seen l → x ∈ l := by
  intro l
  induction l with
  | nil =>
      intro seen h
      cases h
  | cons c rest ih =>
      intro seen h
      rw [dedupAux] at h
      by_cases hc : (seen.contains (mkKey c.1 c.2)) = true
      · rw [if_pos hc] at h
        exact List.mem_cons_of_mem _ (ih h)
      · rw [if_neg hc] at h
        rcases List.mem_cons.mp h with rfl | h2
        · exact List.mem_cons_self _ _
        · exact List.mem_cons_of_mem _ (ih h2)

theorem dedupAux_pairwise :
    ∀ (l : List (Str × Str)) (seen : List Str),
    List.Pairwise (fun a b : Str × Str =>
        mkKey a.1 a.2 ≠ mkKey b.1 b.2) (dedupAux seen l) ∧
    (∀ x ∈ dedupAux seen l, seen.contains (mkKey x.1 x.2) = false) := by
  intro l
  induction l with
  | nil =>
      intro seen
      exact ⟨List.Pairwise.nil, fun x hx => absurd hx (List.not_mem_nil x)⟩
  | cons c rest ih =>
      intro seen
      rw [dedupAux]
      by_cases hc : (seen.contains (mkKey c.1 c.2)) = true
      · rw [if_pos hc]
        exact ih seen
      · rw [if_neg hc]
        rcases ih (mkKey c.1 c.2 :: seen) with ⟨hpw, hseen⟩
        constructor
        · apply List.Pairwise.cons
          · intro x hx
            have hx2 := hseen x hx
            rw [List.contains_cons] at hx2
            intro hEq
            have : (mkKey x.1 x.2 == mkKey c.1 c.2) = true := by
              rw [hEq]
              exact beq_self_eq_true _
            rw [this] at hx2
            simp at hx2
          · exact hpw
        · intro x hx
          rcases List.mem_cons.mp hx with rfl | h2
          · rcases hq : seen.contains (mkKey x.1 x.2) with _ | _
            · rfl
            · exact absurd hq hc
          · have hx2 := hseen x h2
            rw [List.contains_cons] at hx2
            rcases hq : seen.contains (mkKey x.1 x.2) with _ | _
            · rfl
            · rw [hq] at hx2
              simp at hx2

theorem txCallStep_suffix {s : List Char} {g : Str × Str}
    {r : List Char} (h : txCallStep s = some (g, r)) :
    endsWithOneOfCI txMethodSuffixes g.2 = true := by
  rw [txCallStep] at h
  repeat' split at h
  all_goals try cases h
  all_goals exact not_not.mp (by assumption)

end FlowAnalyzer

namespace FlowAnalyzer

open JavaText Rx

theorem tx_method_not_excluded (m : Str)
    (h : endsWithOneOfCI txMethodSuffixes m = true) :
    excludedMethods.contains m = false := by
  rcases hq : excludedMethods.contains m with _ | _
  · rfl
  · exfalso
    have hm := List.elem_iff.mp hq
    simp only [excludedMethods, List.mem_cons, List.not_mem_nil,
      or_false] at hm
    rcases hm with rfl | rfl | rfl | rfl | rfl | rfl | rfl | rfl | rfl <;>
      exact absurd h (by decide)

/-- C8: for every method body, the extracted outbound calls exclude the
utility/logging/equality methods of the unconditional skip list, and no
two entries share the same (class, method) pair. -/
theorem c8_call_exclusion_and_dedup (body : Str) :
    (∀ call ∈ extract_method_calls body,
      excludedMethods.contains call.2 = false) ∧
    List.Pairwise (fun a b : Str × Str => ¬(a.1 = b.1 ∧ a.2 = b.2))
      (extract_method_calls body) := by
  constructor
  · intro call hcall
    rw [extract_method_calls] at hcall
    have hmem := mem_dedupAux hcall
    rcases List.mem_append.mp hmem with h1 | h2
    · rcases List.mem_filterMap.mp h1 with ⟨g, _, hf⟩
      by_cases hex : (excludedMethods.contains g.2) = true
      · rw [if_pos hex] at hf
        cases hf
      · rw [if_neg hex] at hf
        rcases hres : resolveObjClass (autowired_fields body) g.1 with _ | cls
        · simp only [hres] at hf
          cases hf
        · simp only [hres] at hf
          cases hf
          rcases hq : excludedMethods.contains g.2 with _ | _
          · rfl
          · exact absurd hq hex
    · by_cases hg : txGate body = true
      · rw [if_pos hg] at h2
        rcases List.mem_map.mp h2 with ⟨g, hgmem, rfl⟩
        rcases mem_scanM hgmem with ⟨s0, r0, hstep⟩
        have hsuf := txCallStep_suffix hstep
        exact tx_method_not_excluded g.2 hsuf
      · rw [if_neg hg] at h2
        cases h2
  · exact List.Pairwise.imp
      (fun hne hEq => hne (by rw [hEq.1, hEq.2]))
      ((dedupAux_pairwise _ []).1)

/-- A body exercising duplicate collapse, the exclusion list and both
resolution paths. -/
def c8Body : Str :=
  ("return userService.save(x); userService.save(y); obj.toString(); log.info(z); accountRepository.findById(q);").toList

set_option maxRecDepth 40000 in
/-- C8 witness: the exclusion half applied at a concrete body and a
concrete extracted call. -/
theorem c8_call_exclusion_and_dedup_witness :
    excludedMethods.contains ("save".toList) = false :=
  (c8_call_exclusion_and_dedup c8Body).1
    ((("UserService".toList), ("save".toList))) (by decide)

end FlowAnalyzer

namespace FlowAnalyzer

open JavaText

/-- An endpoint dictionary as consumed by `_analyze_endpoint_flow`
(`controller`, `method`, `http_method`, `path`; the `.get` defaults of
lines 187-190 correspond to empty strings here). -/
structure FlowEndpoint where
  controller : Str
  method : Str
  http_method : Str
  path : Str

/-- The analyzer state consumed by the per-endpoint analysis: the keys
of `java_files_map` (insertion-ordered) and `parsed_classes`. -/
structure FlowState where
  javaClasses : List Str
  parsedClasses : ParsedClasses

/-- The structured result of `_analyze_endpoint_flow`. -/
structure FlowResult where
  controller : Str
  endpoint : Str
  http_method : Str
  flow : List FlowNode

/-- Lines 207-218: exact dictionary membership, then the
case-insensitive substring scan over all known classes. -/
def findController (keys : List Str) (c : Str) : Option Str :=
  if keys.contains c then some c
  else keys.find? (fun k => containsCI c k || containsCI k c)

/-- First-occurrence deduplication standing in for `list(set(...))`
(line 309), whose CPython ordering is unspecified. -/
def dedupStrsAux (seen : List Str) : List Str → List Str
  | [] => []
  | x :: rest =>
      if seen.contains x then dedupStrsAux seen rest
      else x :: dedupStrsAux (x :: seen) rest

def dedupStrs (l : List Str) : List Str := dedupStrsAux [] l

/-- The domain-specific alias table of lines 284-293. -/
def c6_alias_table (name : Str) : List Str :=
  if name == ("makeTransfer".toList) then
    [("transfer".toList), ("transferMoney".toList),
     ("processTransfer".toList), ("performTransfer".toList)]
  else if name == ("withdraw".toList) then
    [("withdrawMoney".toList), ("processWithdraw".toList),
     ("performWithdraw".toList), ("withdrawAmount".toList)]
  else if name == ("deposit".toList) then
    [("depositMoney".toList), ("processDeposit".toList),
     ("performDeposit".toList), ("depositAmount".toList)]
  else if name == ("checkAccountBalance".toList) then
    [("getBalance".toList), ("retrieveBalance".toList),
     ("accountBalance".toList), ("getAccountBalance".toList)]
  else if name == ("createAccount".toList) then
    [("addAccount".toList), ("registerAccount".toList),
     ("openAccount".toList), ("newAccount".toList)]
  else []

/-- `FlowAnalyzer._find_similar_method_names` (lines 275-309): alias
table, case-insensitive similarity, and annotation-value matches (the
stored annotations are bare names, so the `'value' in annotation`
test never fires for them). -/
def find_similar_method_names (st : FlowState) (class_name method_name : Str) :
    List Str :=
  match st.parsedClasses.find? (fun p => p.1 == class_name) with
  | none => []
  | some p =>
      dedupStrs ((c6_alias_table method_name) ++
        (p.2.methods.filterMap (fun m =>
          if containsCI method_name m.name || containsCI m.name method_name
          then some m.name else none)) ++
        (p.2.methods.flatMap (fun m =>
          (m.annotations.filter (fun a =>
            containsSeq ("Mapping".toList) a &&
            (containsSeq ("value".toList) a ||
             containsSeq ("path".toList) a))).map (fun _ => m.name))))

/-- Lines 232-257, the endpoint-level recovery ladder: the annotation
pass over the controller's methods, then the first
`_find_similar_method_names` candidate.  (`_analyze_method_flow` always
returns a dictionary containing `method`, so the guard of line 233
reduces to the `is None` test and this ladder is unreachable.) -/
def endpoint_recovery (st : FlowState) (actual httpMethod method : Str) :
    Option FlowNode :=
  match
    (match st.parsedClasses.find? (fun p => p.1 == actual) with
     | none => none
     | some p =>
         (p.2.methods.find? (fun m =>
           m.annotations.contains
             (pyCapitalize httpMethod ++ ("Mapping".toList)) ||
           m.annotations.contains ("RequestMapping".toList))).map
           (fun m => analyze_method_flow st.parsedClasses actual m.name []))
  with
  | some f => some f
  | none =>
      (find_similar_method_names st actual method).head?.map
        (fun nm => analyze_method_flow st.parsedClasses actual nm [])

/-- `FlowAnalyzer._analyze_endpoint_flow` (lines 176-273). -/
def analyze_endpoint_flow (st : FlowState) (ep : FlowEndpoint) :
    FlowResult :=
  if (ep.controller == ([] : Str) || ep.method == ([] : Str)) then
    ⟨ep.controller, ep.path, ep.http_method, []⟩
  else
    match findController st.javaClasses ep.controller with
    | none => ⟨ep.controller, ep.path, ep.http_method, []⟩
    | some actual =>
        let mf : Option FlowNode :=
          some (analyze_method_flow st.parsedClasses actual ep.method [])
        let mf2 : Option FlowNode :=
          match mf with
          | none => endpoint_recovery st actual ep.http_method ep.method
          | some f => some f
        ⟨ep.controller, ep.path, ep.http_method,
          match mf2 with
          | some f => [f]
          | none => []⟩

mutual

/-- `_flatten_flow`'s `process_item` (lines 101-120): annotate a node
with its level and root path; children receive the parent's new path
and the next level. -/
def flattenNode (lvl : Nat) (p : List Str) : FlowNode → FlowNode
  | .mk c m ct rt ic cs _ _ =>
      FlowNode.mk c m ct rt ic
        (match cs with
         | none => none
         | some l => some (flattenList (lvl + 1) (p ++ [mkKey c m]) l))
        (some lvl) (some (p ++ [mkKey c m]))

def flattenList (lvl : Nat) (p : List Str) : List FlowNode → List FlowNode
  | [] => []
  | t :: ts => flattenNode lvl p t :: flattenList lvl p ts

end

/-- The per-endpoint loop of `analyze_flows` (lines 70-91): each
endpoint is traced and flattened independently of the others. -/
def analyze_flows_loop (st : FlowState) (endpoints : List FlowEndpoint) :
    List FlowResult :=
  endpoints.map (fun ep =>
    let r := analyze_endpoint_flow st ep
    ⟨r.controller, r.endpoint, r.http_method, flattenList 0 [] r.flow⟩)

end FlowAnalyzer

namespace FlowAnalyzer

open JavaText

/-- C5: the per-endpoint analysis is total and structured: it always
returns the endpoint's controller, path and HTTP method; when the
controller cannot be matched (exactly or fuzzily) the flow is empty;
and the loop traces every endpoint independently, producing one result
per endpoint. -/
theorem c5_endpoint_flow_never_fails :
    (∀ (st : FlowState) (ep : FlowEndpoint),
      (analyze_endpoint_flow st ep).controller = ep.controller ∧
      (analyze_endpoint_flow st ep).endpoint = ep.path ∧
      (analyze_endpoint_flow st ep).http_method = ep.http_method) ∧
    (∀ (st : FlowState) (ep : FlowEndpoint),
      findController st.javaClasses ep.controller = none →
      (analyze_endpoint_flow st ep).flow = []) ∧
    (∀ (st : FlowState) (endpoints : List FlowEndpoint),
      (analyze_flows_loop st endpoints).length = endpoints.length) := by
  refine ⟨?_, ?_, ?_⟩
  · intro st ep
    rw [analyze_endpoint_flow]
    by_cases h : (ep.controller == ([] : Str) || ep.method == ([] : Str)) = true
    · rw [if_pos h]
      exact ⟨by trivial, by trivial, by trivial⟩
    · rw [if_neg h]
      rcases hfc : findController st.javaClasses ep.controller with _ | actual
      · simp only [hfc]
        exact ⟨by trivial, by trivial, by trivial⟩
      · simp only [hfc]
        exact ⟨by trivial, by trivial, by trivial⟩
  · intro st ep hfc
    rw [analyze_endpoint_flow]
    by_cases h : (ep.controller == ([] : Str) || ep.method == ([] : Str)) = true
    · rw [if_pos h]
    · rw [if_neg h]
      simp only [hfc]
  · intro st endpoints
    rw [analyze_flows_loop]
    exact List.length_map _ _

/-- C5 witness: an endpoint whose controller is unknown still yields
the structured result with an empty flow. -/
theorem c5_endpoint_flow_never_fails_witness :
    (analyze_endpoint_flow ⟨[], []⟩
      ⟨("GhostController".toList), ("m".toList), ("GET".toList),
        ("/g".toList)⟩).flow = [] :=
  c5_endpoint_flow_never_fails.2.1 ⟨[], []⟩
    ⟨("GhostController".toList), ("m".toList), ("GET".toList),
      ("/g".toList)⟩ rfl

end FlowAnalyzer

namespace FlowAnalyzer

open JavaText

/-- Stated from the claim's words (spec section 4.6, step 3), for
comparison with the source behaviour: recovery strategies tried in the
fixed order (a) HTTP-verb-consistent mapping annotation, (b) alias
table, (c) substring similarity, (d) any request-mapping-family
annotation, the first success determining the chosen method. -/
def c6_claimed_recovery (httpMethod : Str) (methods : List MethodInfo)
    (name : Str) : Option MethodInfo :=
  match methods.find? (fun m =>
    m.annotations.contains (pyCapitalize httpMethod ++ ("Mapping".toList)))
  with
  | some m => some m
  | none =>
      match (c6_alias_table name).findSome? (fun nm =>
        methods.find? (fun m => m.name == nm)) with
      | some m => some m
      | none =>
          match methods.find? (fun m =>
            containsCI name m.name || containsCI m.name name) with
          | some m => some m
          | none =>
              methods.find? (fun m =>
                m.annotations.any (fun a => mappingAnnoNames.contains a))

/-- C6 (amended): when the exact method name is absent, the code scans
the declared methods once, picking the first that carries any
mapping-family annotation (regardless of the endpoint's verb) or whose
name is case-insensitively substring-similar; if none matches, the node
is terminal with the default `void` return type.  The endpoint-level
ladder (verb-consistent annotation, alias table, similar-name
candidates) is unreachable, because the inner analysis always returns a
node. -/
theorem c6_method_recovery_actual :
    (∀ (st : FlowState) (ep : FlowEndpoint) (actual : Str),
      (ep.controller == ([] : Str) || ep.method == ([] : Str)) = false →
      findController st.javaClasses ep.controller = some actual →
      (analyze_endpoint_flow st ep).flow =
        [analyze_method_flow st.parsedClasses actual ep.method []]) ∧
    (∀ (ci : ClassInfo) (m : Str),
      ci.methods.find? (fun mi => mi.name == m) = none →
      resolveMethod ci m = ci.methods.find? (fun mi =>
        mi.annotations.any (fun a => mappingAnnoNames.contains a) ||
        containsCI m mi.name || containsCI mi.name m)) ∧
    (∀ (pc : ParsedClasses) (c m : Str) (v : List Str) (cname : Str)
        (cinfo : ClassInfo),
      v.contains (mkKey c m) = false →
      resolveClass pc c = some (cname, cinfo) →
      resolveMethod cinfo m = none →
      analyze_method_flow pc c m v =
        FlowNode.mk cname m cinfo.class_type ("void".toList) false
          none none none) := by
  refine ⟨?_, ?_, ?_⟩
  · intro st ep actual h hfc
    rw [analyze_endpoint_flow,
      if_neg (by rw [h]; exact Bool.false_ne_true)]
    rw [hfc]
  · intro ci m h
    rw [resolveMethod]
    rw [h]
  · intro pc c m v cname cinfo hv hrc hrm
    rw [analyze_method_flow,
      dif_neg (by rw [hv]; exact Bool.false_ne_true)]
    split
    · rename_i heq
      rw [hrc] at heq
      cases heq
    · rename_i cname1 cinfo1 heq
      rw [hrc] at heq
      injection heq with hpair
      cases hpair
      split
      · rfl
      · rename_i mi heq3
        rw [hrm] at heq3
        cases heq3

/-- The parsed classes of the counterexample: the controller declares
only `getBalance` (no annotations, return type `Money`). -/
def c6pc : ParsedClasses :=
  [(("AccountController".toList),
    ⟨("controller".toList),
     [⟨("getBalance".toList), [], ("Money".toList), []⟩]⟩)]

def c6State : FlowState := ⟨[("AccountController".toList)], c6pc⟩

/-- A GET endpoint whose method name `checkAccountBalance` is absent
from the controller; the alias table maps it to `getBalance`. -/
def c6ep : FlowEndpoint :=
  ⟨("AccountController".toList), ("checkAccountBalance".toList),
   ("GET".toList), ("/balance".toList)⟩

/-- What the tracer actually produces there: the default terminal. -/
def c6TerminalNode : FlowNode :=
  FlowNode.mk ("AccountController".toList)
    ("checkAccountBalance".toList) ("controller".toList)
    ("void".toList) false none none none

/-- C6 counterexample: the claimed ladder's strategy (b) succeeds
(alias `getBalance` is declared, with return type `Money`), yet the
code yields the default `void` terminal node — the claimed strategy
order does not determine the chosen method. -/
theorem c6_recovery_order_counterexample :
    (analyze_endpoint_flow c6State c6ep).flow = [c6TerminalNode] ∧
    c6_claimed_recovery ("GET".toList)
      [⟨("getBalance".toList), [], ("Money".toList), []⟩]
      ("checkAccountBalance".toList) =
      some ⟨("getBalance".toList), [], ("Money".toList), []⟩ ∧
    c6TerminalNode.return_type = ("void".toList) ∧
    c6TerminalNode.calls = none := by
  refine ⟨?_, by rfl, rfl, rfl⟩
  have h1 : analyze_method_flow c6pc ("AccountController".toList)
      ("checkAccountBalance".toList) [] = c6TerminalNode :=
    (amfFuel_eq_analyze c6pc 9 ("AccountController".toList)
      ("checkAccountBalance".toList) [] (by decide)).symm.trans rfl
  have h2 := c6_method_recovery_actual.1 c6State c6ep
    ("AccountController".toList) (by decide) rfl
  rw [h2]
  show [analyze_method_flow c6pc ("AccountController".toList)
    ("checkAccountBalance".toList) []] = [c6TerminalNode]
  rw [h1]

/-- C6 witness: the amended theorem applied at the concrete state. -/
theorem c6_method_recovery_actual_witness :
    (analyze_endpoint_flow c6State c6ep).flow =
      [analyze_method_flow c6pc ("AccountController".toList)
        ("checkAccountBalance".toList) []] :=
  c6_method_recovery_actual.1 c6State c6ep ("AccountController".toList)
    (by decide) rfl

end FlowAnalyzer

namespace EndpointParser

open JavaText

/-- The inline brace matcher of `FlowAnalyzer._extract_methods`
(lines 556-569): the count starts at one just after the opening brace,
`method_body` stays empty when no brace ever balances, and otherwise
spans from the opening brace to its matching close. -/
def extract_methods_body (afterBrace : List Char) : Str :=
  if brace_scan afterBrace 1 [] = [] then []
  else '{' :: brace_scan afterBrace 1 []

theorem getLast?_cons_of_ne {c : Char} {p : List Char} (h : p ≠ []) :
    (c :: p).getLast? = p.getLast? := by
  rcases p with _ | ⟨q, qs⟩
  · exact absurd rfl h
  · rw [List.getLast?_cons_cons]

theorem brace_scan_spec : ∀ (s : List Char) (count : Int)
    (acc : List Char),
    brace_scan s count acc = [] ∨
    (∃ p u, s = p ++ u ∧ brace_scan s count acc = acc.reverse ++ p ∧
      p.getLast? = some '}' ∧
      count + (p.count '{' : Int) - (p.count '}' : Int) = 0) := by
  intro s
  induction s with
  | nil =>
      intro count acc
      left
      rfl
  | cons c rest ih =>
      intro count acc
      by_cases hc1 : c = '{'
      · subst hc1
        rw [brace_scan, if_pos rfl]
        rcases ih (count + 1) ('{' :: acc) with h | ⟨p, u, hs, hr, hl, hb⟩
        · left
          exact h
        · right
          have hpne : p ≠ [] := by
            intro hp
            rw [hp] at hl
            cases hl
          refine ⟨'{' :: p, u, by simp [hs], ?_, ?_, ?_⟩
          · rw [hr]
            simp
          · rw [getLast?_cons_of_ne hpne]
            exact hl
          · have h1 : (('{' :: p).count '{' : Int) = p.count '{' + 1 := by
              simp [List.count_cons]
            have h2 : (('{' :: p).count '}' : Int) = p.count '}' := by
              simp [List.count_cons]
            rw [h1, h2]
            omega
      · by_cases hc2 : c = '}'
        · subst hc2
          rw [brace_scan, if_neg (by decide)]
          by_cases hz : count - 1 = 0
          · rw [if_pos rfl, if_pos hz]
            right
            refine ⟨['}'], rest, rfl, by simp, rfl, ?_⟩
            have h1 : ((['}'] : List Char).count '{' : Int) = 0 := by decide
            have h2 : ((['}'] : List Char).count '}' : Int) = 1 := by decide
            rw [h1, h2]
            omega
          · rw [if_pos rfl, if_neg hz]
            rcases ih (count - 1) ('}' :: acc) with h | ⟨p, u, hs, hr, hl, hb⟩
            · left
              exact h
            · right
              have hpne : p ≠ [] := by
                intro hp
                rw [hp] at hl
                cases hl
              refine ⟨'}' :: p, u, by simp [hs], ?_, ?_, ?_⟩
              · rw [hr]
                simp
              · rw [getLast?_cons_of_ne hpne]
                exact hl
              · have h1 : (('}' :: p).count '{' : Int) = p.count '{' := by
                  simp [List.count_cons]
                have h2 : (('}' :: p).count '}' : Int) = p.count '}' + 1 := by
                  simp [List.count_cons]
                rw [h1, h2]
                omega
        · rw [brace_scan, if_neg hc1, if_neg hc2]
          rcases ih count (c :: acc) with h | ⟨p, u, hs, hr, hl, hb⟩
          · left
            exact h
          · right
            have hpne : p ≠ [] := by
              intro hp
              rw [hp] at hl
              cases hl
            refine ⟨c :: p, u, by simp [hs], ?_, ?_, ?_⟩
            · rw [hr]
              simp
            · rw [getLast?_cons_of_ne hpne]
              exact hl
            · have h1 : ((c :: p).count '{' : Int) = p.count '{' := by
                simp [List.count_cons, hc1]
              have h2 : ((c :: p).count '}' : Int) = p.count '}' := by
                simp [List.count_cons, hc2]
              rw [h1, h2]
              omega

end EndpointParser

namespace EndpointParser

open JavaText

theorem brace_scan_no_close : ∀ (s : List Char) (count : Int)
    (acc : List Char), '}' ∉ s → brace_scan s count acc = [] := by
  intro s
  induction s with
  | nil =>
      intro count acc _
      rfl
  | cons c rest ih =>
      intro count acc h
      have hc2 : c ≠ '}' := fun hEq =>
        h (hEq ▸ List.mem_cons_self c rest)
      have hrest : '}' ∉ rest := fun hm => h (List.mem_cons_of_mem c hm)
      by_cases hc1 : c = '{'
      · subst hc1
        rw [brace_scan, if_pos rfl]
        exact ih _ _ hrest
      · rw [brace_scan, if_neg hc1, if_neg hc2]
        exact ih _ _ hrest

/-- C10: the brace-matching extraction is total on every input string
and starting index: the result is an initial segment of the input from
the start position (nothing past the end is read), a non-empty result
ends at the closing brace that balances the running count (equal
numbers of opening and closing braces), and when no closing brace
exists at all the result is the empty string.  The same holds for the
inline variant of `_extract_methods`, whose count starts at one. -/
theorem c10_brace_extraction_total (content : Str) (start : Nat) :
    (∃ u, extract_method_block content start ++ u = content.drop start) ∧
    (extract_method_block content start ≠ [] →
      (extract_method_block content start).getLast? = some '}' ∧
      ((extract_method_block content start).count '{' : Int) =
        (extract_method_block content start).count '}') ∧
    ('}' ∉ content.drop start → extract_method_block content start = []) ∧
    (∀ afterBrace : List Char,
      ('}' ∉ afterBrace → extract_methods_body afterBrace = []) ∧
      (extract_methods_body afterBrace ≠ [] →
        (extract_methods_body afterBrace).getLast? = some '}')) := by
  refine ⟨?_, ?_, ?_, ?_⟩
  · rcases brace_scan_spec (content.drop start) 0 [] with h | ⟨p, u, hs, hr, _, _⟩
    · refine ⟨content.drop start, ?_⟩
      rw [extract_method_block, h]
      rfl
    · refine ⟨u, ?_⟩
      rw [extract_method_block, hr]
      simp only [List.reverse_nil, List.nil_append]
      exact hs.symm
  · intro hne
    rcases brace_scan_spec (content.drop start) 0 [] with h | ⟨p, u, hs, hr, hl, hb⟩
    · exact absurd (by rw [extract_method_block, h]) hne
    · have hres : extract_method_block content start = p := by
        rw [extract_method_block, hr]
        simp
      rw [hres]
      exact ⟨hl, by omega⟩
  · intro h
    rw [extract_method_block]
    exact brace_scan_no_close _ _ _ h
  · intro afterBrace
    constructor
    · intro h
      rw [extract_methods_body, if_pos (brace_scan_no_close _ _ _ h)]
    · intro hne
      rw [extract_methods_body] at hne ⊢
      by_cases hz : brace_scan afterBrace 1 [] = []
      · rw [if_pos hz] at hne
        exact absurd rfl hne
      · rw [if_neg hz] at hne ⊢
        rcases brace_scan_spec afterBrace 1 [] with h | ⟨p, u, hs, hr, hl, hb⟩
        · exact absurd h hz
        · have hpe : brace_scan afterBrace 1 [] = p := by
            rw [hr]
            simp
          rw [hpe]
          rw [getLast?_cons_of_ne (by
            intro hp
            rw [hp] at hpe
            exact hz hpe)]
          exact hl

/-- A body with nested braces followed by trailing text. -/
def c10Example : Str :=
  ("x(a) \x7b if (a) \x7b b; \x7d \x7d tail").toList

/-- C10 witness: the theorem applied at a nested-brace input and at an
input with no closing brace. -/
theorem c10_brace_extraction_total_witness :
    (extract_method_block c10Example 0).getLast? = some '}' ∧
    ((extract_method_block c10Example 0).count '{' : Int) =
      (extract_method_block c10Example 0).count '}' ∧
    extract_method_block (("no braces here").toList) 0 = [] :=
  ⟨((c10_brace_extraction_total c10Example 0).2.1 (by decide)).1,
   ((c10_brace_extraction_total c10Example 0).2.1 (by decide)).2,
   (c10_brace_extraction_total (("no braces here").toList) 0).2.2.1
     (by decide)⟩

end EndpointParser

namespace Rx

/-- Ordered alternation of literal keywords. -/
def kwAlt {β : Type} : List (List Char) → Cont β → Cont β
  | [], _ => fun _ => none
  | kw :: rest, k => fun s =>
      match litM kw k s with
      | some r => some r
      | none => kwAlt rest k s

/-- A single character from a class. -/
def oneCls {β : Type} (p : Char → Bool) (k : Cont β) : Cont β := fun s =>
  match s with
  | [] => none
  | c :: rest => if p c then k rest else none

end Rx

namespace EndpointParser

open JavaText Rx

/-- `dict[k] = f(dict[k])` on an existing key (no-op when absent). -/
def dictUpdate {β : Type} (d : Dict β) (k : Str) (f : β → β) : Dict β :=
  match d with
  | [] => []
  | (k0, v0) :: rest =>
      if k0 == k then (k0, f v0) :: rest else (k0, v0) :: dictUpdate rest k f

/-- `if k not in d: d[k] = []` followed by `d[k].append(v)`. -/
def dictAppendTo (d : Dict (List Str)) (k : Str) (v : Str) :
    Dict (List Str) :=
  if dictContains d k then dictUpdate d k (fun l => l ++ [v])
  else d ++ [(k, [v])]

/-- The service method pattern of line 363:
`(?:public|private|protected)\s+(?:[\w<>[\],\s]+)\s+(\w+)\s*\([^)]*\)
\s*(?:throws\s+[\w,\s]+\s*)?\{`, capturing the name and the input just
after the opening brace (`match.end()`, where the brace scan of the
body starts — inside the body, so a flat body yields an empty block). -/
def svcMethodMatcher : List Char → Option ((Str × List Char) × List Char) :=
  kwAlt [("public".toList), ("private".toList), ("protected".toList)]
    (plusCls isPyWs (plusCls isFieldTypeChar (plusCls isPyWs
      (capPlusCls isWordChar (fun name =>
        starCls isPyWs (litM ("(".toList) (starCls (fun c => c ≠ ')')
          (litM (")".toList) (starCls isPyWs
            (optM (fun k2 => litM ("throws".toList) (plusCls isPyWs
                (plusCls (fun c => isWordChar c || c = ',' || isPyWs c)
                  (starCls isPyWs k2))))
              (litM ("\x7b".toList) (fun rest =>
                some ((name, rest), rest)))))))))))))

/-- The `@Autowired\s+(?:private|protected|public)?\s+(\w+)\s+(\w+);`
field pattern of lines 379 and 499. -/
def autowiredFieldMatcher :
    List Char → Option ((Str × Str) × List Char) :=
  litM ("@Autowired".toList) (plusCls isPyWs
    (optM (fun k2 => kwAlt [("private".toList), ("protected".toList),
        ("public".toList)] k2)
      (plusCls isPyWs (capPlusCls isWordChar (fun t =>
        plusCls isPyWs (capPlusCls isWordChar (fun n =>
          litM (";".toList) (fun rest => some ((t, n), rest)))))))))

/-- `EndpointParser._parse_service_file` (lines 346-388). -/
def parse_service_file (st : EPState) (content : Str) : EPState :=
  match extract_class_name content with
  | none => st
  | some class_name =>
      if ¬ (dictContains st.services class_name = true) then st
      else
        let ms := (scanM svcMethodMatcher content).map (fun g =>
          SvcMethod.mk g.1 (brace_scan g.2 0 [])
            (extract_repository_calls (brace_scan g.2 0 [])))
        let st1 := { st with services := (dictUpdate st.services class_name
          (fun r => { r with methods := r.methods ++ ms })) }
        (scanM autowiredFieldMatcher content).foldl (fun st g =>
          if dictContains st.repositories g.1 ||
              ("Repository".toList).isSuffixOf g.1 then
            { st with service_repo_mappings :=
                dictAppendTo st.service_repo_mappings class_name g.1 }
          else st) st1

/-- The repository entity pattern of line 407:
`(?:interface|class)\s+\w+\s+extends\s+\w+Repository<(\w+),`. -/
def repoEntityMatcher : List Char → Option Str :=
  kwAlt [("interface".toList), ("class".toList)]
    (plusCls isPyWs (plusCls isWordChar (plusCls isPyWs
      (litM ("extends".toList) (plusCls isPyWs
        (plusCls isWordChar (litM ("Repository<".toList)
          (capPlusCls isWordChar (fun e =>
            litM (",".toList) (fun _ => some e))))))))))

/-- The repository method pattern of line 415:
`(?:public|private|protected)?\s+(?:[\w<>[\],\s]+)\s+(\w+)\s*\([^)]*\)`. -/
def repoMethodMatcher : List Char → Option (Str × List Char) :=
  optM (fun k2 => kwAlt [("public".toList), ("private".toList),
      ("protected".toList)] k2)
    (plusCls isPyWs (plusCls isFieldTypeChar (plusCls isPyWs
      (capPlusCls isWordChar (fun name =>
        starCls isPyWs (litM ("(".toList) (starCls (fun c => c ≠ ')')
          (litM (")".toList) (fun rest => some (name, rest))))))))))

/-- `EndpointParser._parse_repository_file` (lines 390-421). -/
def parse_repository_file (st : EPState) (content : Str) : EPState :=
  match extract_class_name content with
  | none => st
  | some class_name =>
      if ¬ (dictContains st.repositories class_name = true) then st
      else
        let entity_type := searchM repoEntityMatcher content
        let st1 :=
          match entity_type with
          | none => st
          | some e => { st with repositories := (dictUpdate st.repositories
              class_name (fun r => { r with entity_type := some e })) }
        let ms := (scanM repoMethodMatcher content).map
          (fun n => RepoMethod.mk n entity_type)
        { st1 with repositories := (dictUpdate st1.repositories class_name
            (fun r => { r with methods := r.methods ++ ms })) }

/-- The table pattern of line 440:
`@Table\s*\(\s*name\s*=\s*"([^"]+)"`. -/
def tableMatcher : List Char → Option Str :=
  litM ("@Table".toList) (starCls isPyWs (litM ("(".toList)
    (starCls isPyWs (litM ("name".toList) (starCls isPyWs
      (litM ("=".toList) (starCls isPyWs (litM ("\"".toList)
        (capPlusCls (fun c => c ≠ '"') (fun t =>
          litM ("\"".toList) (fun _ => some t)))))))))))

/-- `EndpointParser._parse_entity_file` (lines 423-477); `none` models
the `IndexError` raised by `match.group(2)` when the one-group
`@ManyToMany` pattern matches (line 470). -/
def parse_entity_file (st : EPState) (content : Str) : Option EPState :=
  match extract_class_name content with
  | none => some st
  | some class_name =>
      if ¬ (dictContains st.entities class_name = true) then some st
      else
        let st1 :=
          match searchM tableMatcher content with
          | none => st
          | some t => { st with entities := (dictUpdate st.entities
              class_name (fun r => { r with table_name := some t })) }
        let st2 := { st1 with entities := (dictUpdate st1.entities
          class_name (fun r =>
            { r with fields := r.fields ++ entity_fields content })) }
        match entity_relationships content with
        | none => none
        | some rels => some { st2 with entities := (dictUpdate st2.entities
            class_name (fun r => { r with relationships :=
              (some ((r.relationships.getD []) ++ rels)) })) }

/-- The per-controller-pattern body of `_identify_relationships`
(lines 496-508). -/
def identify_rel_fields (st : EPState) (class_name : Str) (content : Str) :
    EPState :=
  (scanM autowiredFieldMatcher content).foldl (fun st g =>
    if dictContains st.services g.1 ||
        ("Service".toList).isSuffixOf g.1 then
      { st with controller_service_mappings :=
          dictAppendTo st.controller_service_mappings class_name g.1 }
    else st) st

/-- `EndpointParser._identify_relationships` (lines 479-508): the field
loop runs once per matching controller annotation pattern. -/
def identify_relationships (st : EPState) (content : Str) : EPState :=
  match extract_class_name content with
  | none => st
  | some class_name =>
      let st1 := if searchWordB ("@RestController".toList) content then
          identify_rel_fields st class_name content
        else st
      if searchWordB ("@Controller".toList) content then
        identify_rel_fields st1 class_name content
      else st1

/-- `EndpointParser._enrich_endpoints_with_dependencies`
(lines 564-580). -/
def enrich_endpoints (st : EPState) (endpoints : List Endpoint) :
    List Endpoint :=
  endpoints.map (fun e =>
    match e.controller with
    | none => e
    | some n =>
        if dictContains st.controller_service_mappings n then
          let svcs := (dictGet st.controller_service_mappings n).getD []
          let repos := svcs.flatMap (fun s =>
            (dictGet st.service_repo_mappings s).getD [])
          { e with services := some svcs,
                   repositories :=
                     (if repos.isEmpty then none else some repos) }
        else e)

/-- `EndpointParser.parse_endpoints` (lines 61-138): reset of the five
instance dictionaries (lines 88-93), the classification pass, the
per-file parsing pass, the relationship pass and the enrichment step.
The incoming instance state `st0` is discarded by the reset; `none`
models the uncaught `IndexError` of the `@ManyToMany` defect
propagating out of the scan. -/
def parse_endpoints (files : List (Str × Str)) (st0 : EPState) :
    Option (List Endpoint × EPState) :=
  let st := emptyEPState
  let st1 := first_pass files st
  let step2 := files.foldl (fun acc f =>
    match acc with
    | none => none
    | some (st, eps) =>
        let eps2 := eps ++ parse_file f.2
        let stA := parse_service_file st f.2
        let stB := parse_repository_file stA f.2
        match parse_entity_file stB f.2 with
        | none => none
        | some stC => some (stC, eps2)) (some (st1, []))
  match step2 with
  | none => none
  | some (st2, endpoints) =>
      let st3 := files.foldl (fun st f => identify_relationships st f.2) st2
      some (enrich_endpoints st3 endpoints, st3)

end EndpointParser

namespace EntityParser

open JavaText Rx

/-- Python `str.split(sep)` for a one-character separator. -/
def splitChar (sep : Char) : List Char → List (List Char)
  | [] => [[]]
  | c :: rest =>
      let r := splitChar sep rest
      if c = sep then [] :: r
      else
        match r with
        | [] => [[c]]
        | h :: t => (c :: h) :: t

/-- The thirteen `db_annotations` substrings of `EntityParser.__init__`
(lines 36-41). -/
def db_annotations : List Str :=
  [("@Entity".toList), ("@Table".toList), ("@Column".toList),
   ("@Id".toList), ("@GeneratedValue".toList), ("@OneToMany".toList),
   ("@ManyToOne".toList), ("@OneToOne".toList), ("@ManyToMany".toList),
   ("@JoinColumn".toList), ("@JoinTable".toList), ("@Embeddable".toList),
   ("@Embedded".toList)]

/-- The class pattern of line 107:
`(?:public|private|protected)?\s+(?:abstract\s+)?class\s+(\w+)` (note
the mandatory whitespace before `abstract`/`class`). -/
def entClassMatcher : List Char → Option Str :=
  optM (fun k2 => kwAlt [("public".toList), ("private".toList),
      ("protected".toList)] k2)
    (plusCls isPyWs
      (optM (fun k2 => litM ("abstract".toList) (plusCls isPyWs k2))
        (litM ("class".toList) (plusCls isPyWs
          (capPlusCls isWordChar (fun n _ => some n))))))

/-- The package pattern of line 114: `package\s+([\w.]+);`. -/
def packageMatcher : List Char → Option Str :=
  litM ("package".toList) (plusCls isPyWs
    (capPlusCls (fun c => isWordChar c || c = '.') (fun p =>
      litM (";".toList) (fun _ => some p))))

/-- `re.search(r'class\s+' + class_name, line)` (lines 128 and 180). -/
def lineHasClassDecl (name : Str) (line : Str) : Bool :=
  (searchM (litM ("class".toList) (plusCls isPyWs
    (litM name (fun _ => some ())))) line).isSome

/-- The class-annotation collection loop of lines 121-134: lines are
stripped; once the class declaration line is seen the flag is set and
no further `@` lines are collected. -/
def classAnnotationsAux (name : Str) : Bool → List (List Char) → List Str
  | _, [] => []
  | inDecl, l :: rest =>
      let line := pyStripWs l
      if lineHasClassDecl name line then classAnnotationsAux name true rest
      else if !inDecl && headIs '@' line then
        line :: classAnnotationsAux name inDecl rest
      else classAnnotationsAux name inDecl rest

/-- The `(\w+(?:<[^>]+>)?)` captured type fragment: a word run with an
optional angle-bracketed tail included in the capture. -/
def typeGenericCap {β : Type} (k : Str → Cont β) : Cont β :=
  capPlusCls isWordChar (fun w => fun s =>
    match litM ("<".toList) (capPlusCls (fun c => c ≠ '>') (fun inner =>
        litM (">".toList) (k (w ++ '<' :: (inner ++ ['>']))))) s with
    | some r => some r
    | none => k w s)

/-- One field entry of `_extract_fields` (type, name, and the
annotation lines collected since the last field). -/
structure EntField where
  ftype : Str
  name : Str
  annotations : List Str
deriving DecidableEq

/-- The field pattern of line 200:
`(?:private|public|protected)?\s+(?:final\s+)?(\w+(?:<[^>]+>)?)\s+(\w+)`. -/
def fieldLineMatcher : List Char → Option ((Str × Str) × List Char) :=
  optM (fun k2 => kwAlt [("private".toList), ("public".toList),
      ("protected".toList)] k2)
    (plusCls isPyWs
      (optM (fun k2 => litM ("final".toList) (plusCls isPyWs k2))
        (typeGenericCap (fun t => plusCls isPyWs
          (capPlusCls isWordChar (fun n rest => some ((t, n), rest)))))))

/-- The field loop of `_extract_fields` (lines 186-212): stop at a
stripped line starting with a closing brace, collect `@` lines as
pending annotations, and on a field match emit the entry and clear
the pending annotations (other lines leave them untouched). -/
def extractFieldsAux : List Str → List (List Char) → List EntField
  | _, [] => []
  | anns, l :: rest =>
      let line := pyStripWs l
      if headIs '}' line then []
      else if headIs '@' line then extractFieldsAux (anns ++ [line]) rest
      else
        match searchM fieldLineMatcher line with
        | some g => ⟨g.1.1, g.1.2, anns⟩ :: extractFieldsAux [] rest
        | none => extractFieldsAux anns rest

/-- `EntityParser._extract_fields` (lines 160-214): lines after the
first one matching `class\s+<name>`. -/
def extract_fields (content : Str) (class_name : Str) : List EntField :=
  let lines := splitChar '\n' content
  match lines.findIdx? (fun l => lineHasClassDecl class_name l) with
  | none => []
  | some i => extractFieldsAux [] (lines.drop (i + 1))

def isQuoteC (c : Char) : Bool := c == '"' || c == '\''

/-- The column pattern of line 229:
`@Column\s*\(\s*name\s*=\s*["\']([^"\']+)["\']`, yielding the column
name and the input right after the match (the 200-character lookahead
starts there). -/
def colMappingStep : List Char → Option ((Str × List Char) × List Char) :=
  litM ("@Column".toList) (starCls isPyWs (litM ("(".toList)
    (starCls isPyWs (litM ("name".toList) (starCls isPyWs
      (litM ("=".toList) (starCls isPyWs
        (oneCls isQuoteC (capPlusCls (fun c => !isQuoteC c) (fun col =>
          oneCls isQuoteC (fun rest => some ((col, rest), rest))))))))))))

/-- `(?:\w+(?:<[^>]+>)?)`: the non-capturing variant of the type
fragment. -/
def typeGenericNoCap {β : Type} (k : Cont β) : Cont β :=
  plusCls isWordChar (fun s =>
    match litM ("<".toList) (plusCls (fun c => c ≠ '>')
        (litM (">".toList) k)) s with
    | some r => some r
    | none => k s)

/-- The lookahead field pattern of line 239 (the name is the only
group). -/
def colFieldMatcher : List Char → Option Str :=
  optM (fun k2 => kwAlt [("private".toList), ("public".toList),
      ("protected".toList)] k2)
    (plusCls isPyWs
      (optM (fun k2 => litM ("final".toList) (plusCls isPyWs k2))
        (typeGenericNoCap (plusCls isPyWs
          (capPlusCls isWordChar (fun n _ => some n))))))

/-- `EntityParser._extract_column_mappings` (lines 216-245): each
`@Column(name = "...")` match searches the next 200 characters for a
field declaration and maps that field name to the column name. -/
def extract_column_mappings (content : Str) : Dict Str :=
  (scanM colMappingStep content).foldl (fun m g =>
    match searchM colFieldMatcher (g.2.take 200) with
    | none => m
    | some fname => dictSet m fname g.1) []

/-- The implements pattern of line 249:
`implements\s+([\w.,\s]+)(?:\{|$)`; `$` matches at the very end of the
input or before a final trailing newline. -/
def implMatcher : List Char → Option Str :=
  litM ("implements".toList) (plusCls isPyWs
    (capPlusCls (fun c => isWordChar c || c = '.' || c = ',' || isPyWs c)
      (fun s0 rest =>
        if headIs '{' rest then some s0
        else if rest.isEmpty || rest == ['\n'] then some s0
        else none)))

/-- `EntityParser._extract_implements` (lines 247-253). -/
def extract_implements (content : Str) : List Str :=
  match searchM implMatcher content with
  | none => []
  | some s0 => (splitChar ',' s0).map pyStripWs

/-- The extends pattern of line 257: `extends\s+(\w+)`. -/
def extendsMatcher : List Char → Option Str :=
  litM ("extends".toList) (plusCls isPyWs
    (capPlusCls isWordChar (fun n _ => some n)))

/-- `EntityParser._extract_extends` (lines 255-260). -/
def extract_extends (content : Str) : Option Str :=
  searchM extendsMatcher content

/-- One stored entity record (lines 147-156); `file_path` holds the
repository-relative path. -/
structure EntityClassRec where
  name : Str
  package : Str
  annotations : List Str
  fields : List EntField
  column_mappings : Dict Str
  implements_list : List Str
  extends_parent : Option Str
  file_path : Str
deriving DecidableEq

/-- The record stored for a detected entity class, a pure function of
the file path and content. -/
def entity_record (file_path content class_name : Str) : EntityClassRec :=
  { name := class_name,
    package := (searchM packageMatcher content).getD ("unknown".toList),
    annotations := classAnnotationsAux class_name false
      (splitChar '\n' content),
    fields := extract_fields content class_name,
    column_mappings := extract_column_mappings content,
    implements_list := extract_implements content,
    extends_parent := extract_extends content,
    file_path := file_path }

/-- The per-instance mutable state of `EntityParser`: `self.entities`
and `self.count`, initialised once in `__init__` and never reset. -/
structure EntState where
  entities : Dict EntityClassRec
  count : Nat
deriving DecidableEq

/-- Lines 93-105: the file is processed iff `@Entity\b` occurs
(`is_entity`) or, failing that, one of the thirteen annotation strings
occurs as a substring (`has_db_annotations`); the skip condition
`not is_entity and not has_db_annotations` is its negation. -/
def entity_detect (content : Str) : Bool :=
  searchWordB ("@Entity".toList) content ||
    (!searchWordB ("@Entity".toList) content &&
      db_annotations.any (fun a => containsSeq a content))

/-- `EntityParser._parse_file` (lines 76-158) on one `(path, content)`
pair: detection, class-name extraction, record construction, and the
unconditional `self.count += 1` after storing. -/
def parse_file (st : EntState) (f : Str × Str) : EntState :=
  if !entity_detect f.2 then st
  else
    match searchM entClassMatcher f.2 with
    | none => st
    | some class_name =>
        { entities := (dictSet st.entities class_name
            (entity_record f.1 f.2 class_name)),
          count := st.count + 1 }

/-- The key under which a file's class is stored, when the file is
processed at all. -/
def entity_key (f : Str × Str) : Option Str :=
  if entity_detect f.2 then searchM entClassMatcher f.2 else none

/-- `EntityParser.parse_entities` (lines 43-74): every file is parsed
into the SAME instance state — nothing resets `self.entities` or
`self.count` first — and the returned dictionary is exactly the final
state (`\x7b"entities": self.entities, "count": self.count\x7d`). -/
def parse_entities (files : List (Str × Str)) (st : EntState) : EntState :=
  files.foldl parse_file st

end EntityParser

theorem dictGet_dictSet_self {β : Type} (d : Dict β) (k : Str) (v : β) :
    dictGet (dictSet d k v) k = some v := by
  induction d with
  | nil => simp [dictSet, dictGet]
  | cons p rest ih =>
      obtain ⟨k0, v0⟩ := p
      rcases h : (k0 == k) with _ | _
      · simp [dictSet, dictGet, h, ih]
      · simp [dictSet, dictGet, h]

theorem dictGet_dictSet_ne {β : Type} (d : Dict β) (k k' : Str) (v : β)
    (h : k ≠ k') : dictGet (dictSet d k v) k' = dictGet d k' := by
  induction d with
  | nil =>
      simp only [dictSet, dictGet]
      rw [if_neg (by simpa using h)]
  | cons p rest ih =>
      obtain ⟨k0, v0⟩ := p
      rcases h0 : (k0 == k) with _ | _
      · simp [dictSet, dictGet, h0, ih]
      · have hk0 : k0 = k := by simpa using h0
        have : (k0 == k') = false := by
          subst hk0; simpa using h
        simp [dictSet, dictGet, h0, this]

theorem dictSet_same {β : Type} (d : Dict β) (k : Str) (v : β)
    (h : dictGet d k = some v) : dictSet d k v = d := by
  induction d with
  | nil => simp [dictGet] at h
  | cons p rest ih =>
      obtain ⟨k0, v0⟩ := p
      rcases h0 : (k0 == k) with _ | _
      · simp only [dictGet, h0] at h
        rw [if_neg (by simp)] at h
        simp [dictSet, h0, ih h]
      · simp only [dictGet, h0] at h
        rw [if_pos (by simp)] at h
        cases h
        simp [dictSet, h0]

namespace EntityParser

open JavaText Rx

/-- `_parse_file` in terms of `entity_key`: a skipped file leaves the
state alone; a processed one stores the record and bumps the count. -/
theorem parse_file_eq (st : EntState) (f : Str × Str) :
    parse_file st f =
      match entity_key f with
      | none => st
      | some k =>
          { entities := dictSet st.entities k (entity_record f.1 f.2 k),
            count := st.count + 1 } := by
  unfold parse_file entity_key
  rcases h : entity_detect f.2 with _ | _
  · simp [h]
  · simp [h]

/-- Each call adds the number of processed files to the incoming
count: nothing resets it. -/
theorem parse_entities_count (files : List (Str × Str)) :
    ∀ st : EntState, (parse_entities files st).count =
      st.count + (files.filterMap entity_key).length := by
  induction files with
  | nil => intro st; simp [parse_entities]
  | cons f rest ih =>
      intro st
      have hc : parse_entities (f :: rest) st =
          parse_entities rest (parse_file st f) := rfl
      rw [hc, ih, parse_file_eq]
      rcases hk : entity_key f with _ | k
      · simp [List.filterMap_cons, hk]
      · simp only [List.filterMap_cons, hk, List.length_cons]
        omega

/-- Files whose key differs from `k` never disturb the entry at `k`. -/
theorem parse_entities_get_preserved (files : List (Str × Str)) :
    ∀ (st : EntState) (k : Str),
      (∀ f ∈ files, entity_key f ≠ some k) →
      dictGet (parse_entities files st).entities k =
        dictGet st.entities k := by
  induction files with
  | nil => intro st k _; rfl
  | cons f rest ih =>
      intro st k h
      have hc : parse_entities (f :: rest) st =
          parse_entities rest (parse_file st f) := rfl
      rw [hc, ih _ k (fun g hg => h g (List.mem_cons_of_mem f hg)),
        parse_file_eq]
      rcases hk : entity_key f with _ | k'
      · rfl
      · have hne : k' ≠ k := fun he =>
          h f (List.mem_cons_self f rest) (by rw [hk, he])
        simp only []
        exact dictGet_dictSet_ne st.entities k' k _ hne

/-- After a run with pairwise-distinct stored class names, each
processed file's record is retrievable under its class name. -/
theorem parse_entities_get_stored (files : List (Str × Str)) :
    ∀ st : EntState,
      (files.filterMap entity_key).Nodup →
      ∀ f ∈ files, ∀ k, entity_key f = some k →
        dictGet (parse_entities files st).entities k =
          some (entity_record f.1 f.2 k) := by
  induction files with
  | nil => intro st _ f hf; cases hf
  | cons f0 rest ih =>
      intro st hnd f hf k hk
      have hc : parse_entities (f0 :: rest) st =
          parse_entities rest (parse_file st f0) := rfl
      rcases List.mem_cons.mp hf with he | hmem
      · subst he
        rw [List.filterMap_cons, hk] at hnd
        have hout : k ∉ rest.filterMap entity_key :=
          (List.nodup_cons.mp hnd).1
        rw [hc, parse_entities_get_preserved rest _ k
          (fun g hg hkey => hout (List.mem_filterMap.mpr ⟨g, hg, hkey⟩)),
          parse_file_eq, hk]
        exact dictGet_dictSet_self st.entities k _
      · have hndrest : (rest.filterMap entity_key).Nodup := by
          rw [List.filterMap_cons] at hnd
          rcases hk0 : entity_key f0 with _ | k0
          · rwa [hk0] at hnd
          · rw [hk0] at hnd
            exact (List.nodup_cons.mp hnd).2
        rw [hc]
        exact ih _ hndrest f hmem k hk

/-- A run over files whose records are all already stored leaves the
entities map unchanged (the count still moves). -/
theorem parse_entities_stable (files : List (Str × Str)) :
    ∀ st : EntState,
      (∀ f ∈ files, ∀ k, entity_key f = some k →
        dictGet st.entities k = some (entity_record f.1 f.2 k)) →
      (parse_entities files st).entities = st.entities := by
  induction files with
  | nil => intro st _; rfl
  | cons f rest ih =>
      intro st h
      have hent : (parse_file st f).entities = st.entities := by
        rw [parse_file_eq]
        rcases hk : entity_key f with _ | k
        · rfl
        · simp only []
          exact dictSet_same st.entities k _
            (h f (List.mem_cons_self f rest) k hk)
      have hc : parse_entities (f :: rest) st =
          parse_entities rest (parse_file st f) := rfl
      rw [hc, ih (parse_file st f)
        (fun g hg k hk => by
          rw [hent]; exact h g (List.mem_cons_of_mem f hg) k hk), hent]

end EntityParser

/-- A concrete entity file for the repeated-parse experiment. -/
def c9OrderContent : Str :=
  ("package com.shop.model;\n\n@Entity\n@Table(name = \"orders\")\npublic class Order \x7b\n    @Id\n    private Long id;\n\n    private List<Item> items;\n\x7d\n").toList

def c9Files : List (Str × Str) :=
  [(("Order.java".toList), c9OrderContent)]

/-- C9: `parse_endpoints` resets the five instance dictionaries at the
start of every call, so its result is a function of the file list
alone — repeated invocation on an unmodified tree is idempotent; but
`EntityParser.parse_entities` never resets `self.entities` or
`self.count`: a call adds the number of processed files to whatever
count the instance already holds, and only the entities map (under
pairwise-distinct stored class names) is stable across a second run. -/
theorem c9_reset_and_entity_accumulation :
    (∀ (files : List (Str × Str)) (st st' : EndpointParser.EPState),
        EndpointParser.parse_endpoints files st =
          EndpointParser.parse_endpoints files st') ∧
    (∀ (files : List (Str × Str)) (st : EntityParser.EntState),
        (EntityParser.parse_entities files st).count =
          st.count + (files.filterMap EntityParser.entity_key).length) ∧
    (∀ (files : List (Str × Str)) (st : EntityParser.EntState),
        (files.filterMap EntityParser.entity_key).Nodup →
        (EntityParser.parse_entities files
            (EntityParser.parse_entities files st)).entities =
          (EntityParser.parse_entities files st).entities) := by
  refine ⟨fun files st st' => rfl,
    fun files st => EntityParser.parse_entities_count files st, ?_⟩
  intro files st hnd
  exact EntityParser.parse_entities_stable files _
    (fun f hf k hk =>
      EntityParser.parse_entities_get_stored files st hnd f hf k hk)

set_option maxRecDepth 40000 in
/-- C9 counterexample: on a one-entity file list, the first
`parse_entities` call reports count 1 and a second call on the same
instance reports count 2, so the two results differ — the entity-only
parse is not idempotent. -/
theorem c9_entity_count_counterexample :
    (EntityParser.parse_entities c9Files ⟨[], 0⟩).count = 1 ∧
    (EntityParser.parse_entities c9Files
        (EntityParser.parse_entities c9Files ⟨[], 0⟩)).count = 2 ∧
    EntityParser.parse_entities c9Files
        (EntityParser.parse_entities c9Files ⟨[], 0⟩) ≠
      EntityParser.parse_entities c9Files ⟨[], 0⟩ := by
  refine ⟨rfl, rfl, ?_⟩
  intro h
  have h2 : (2 : Nat) = 1 := by
    calc (2 : Nat)
        = (EntityParser.parse_entities c9Files
            (EntityParser.parse_entities c9Files ⟨[], 0⟩)).count := by rfl
      _ = (EntityParser.parse_entities c9Files ⟨[], 0⟩).count :=
          congrArg EntityParser.EntState.count h
      _ = 1 := by rfl
  exact absurd h2 (by decide)

set_option maxRecDepth 40000 in
/-- Witness: the claim theorem instantiated on the concrete one-entity
file list, with the distinct-class-names hypothesis discharged by
evaluation. -/
theorem c9_reset_and_entity_accumulation_witness :
    (EntityParser.parse_entities c9Files
        (EntityParser.parse_entities c9Files ⟨[], 0⟩)).entities =
      (EntityParser.parse_entities c9Files ⟨[], 0⟩).entities ∧
    (EntityParser.parse_entities c9Files ⟨[], 0⟩).count =
      (0 : Nat) + (c9Files.filterMap EntityParser.entity_key).length :=
  ⟨c9_reset_and_entity_accumulation.2.2 c9Files ⟨[], 0⟩ (by decide),
   c9_reset_and_entity_accumulation.2.1 c9Files ⟨[], 0⟩⟩
